import Mathlib

/-!
# libtorrent alert dispatch: ring buffer, latch, arenas

A shallow embedding of `include/libtorrent/alert_manager.hpp` and of
`shared_lock` from `include/libtorrent/thread.hpp`.

Conventions of the embedding.

* An `alert*` is an address (`Nat`); a slot of `m_alerts` is an
  `Option Alert`, `none` standing for `NULL`.
* `int` counters (`m_queue_size`, `m_queue_write_slot`, `m_queue_read_slot`,
  `m_queue_size_limit`) are natural numbers: the code keeps them non-negative
  and every subtraction on them is guarded by a comparison.
* `do_enqueue_alert` is given twice. `do_enqueue_alert_int` computes as the
  code does, in 32-bit `int` arithmetic: every sum, difference and product is
  reduced modulo `2^32` into the range of `int` (`int_wrap`).
  `do_enqueue_alert`, with `next_slot`, `real_size` and the atomic steps of
  `producer_step`, computes the same expressions in exact arithmetic. The
  two agree whenever `2 * m_queue_size_limit <= INT_MAX`, the slot indices
  are inside the array and the priority is 0 or 1
  (`do_enqueue_alert_int_eq`, `run_ops_int_eq`); for a limit of `2^30` or
  more `size_limit * 2` overflows and they differ
  (`do_enqueue_alert_int_overflow`).
* `std::vector<boost::atomic<alert*>> m_alerts` is a total map from indices to
  slots; only indices below `2 * m_queue_size_limit` are ever used.
* Callbacks are observed through counters and logs that the code itself does
  not have (`notify_calls`, `condition_notify_all_calls`, `on_alert_log`,
  `dispatched`, `resets`). The notify and the dispatch function are taken to
  return without touching the alert manager; an `on_alert` hook returns or
  raises (`hook_outcome`), exceptions being enabled.
* A call that never returns (the slot spin of `do_enqueue_alert` when nobody
  frees the slot) is `none`.
-/

namespace libtorrent

/-- An `alert*`: the address of an alert object. -/
abbrev Alert := Nat

/-- The `alert_pool` of `alert_manager`: for every alert type a FIFO
(`std::queue<alert*>`) of free storage blocks. The per-type mutexes only
serialise the calls and are not part of the sequential state. -/
structure alert_pool where
  m_pool : Nat → List Alert

/-- What a call `(*i)->on_alert(alert)` of a plugin's hook does (the hooks
are code of the plugins, outside the alert manager): it returns, it raises an
exception of a class derived from `std::exception`, or it raises an object of
another type. -/
inductive hook_outcome where
  | returns
  | std_exception
  | other_exception
deriving DecidableEq, Repr

/-- A session extension (`boost::shared_ptr<plugin>`). Of the plugin only
its `on_alert` hook matters here: `on_alert a` tells what the hook does when
handed the alert `a`. -/
structure plugin where
  id : Nat
  on_alert : Alert → hook_outcome

/-- How a call of `emplace_alert` ends: it returns a value, or an exception
leaves it. -/
inductive call_end where
  | returned (value : Bool)
  | raised
deriving DecidableEq, Repr

/-- Modelled from the spec: `aux::stack_allocator` (stack_allocator.hpp is
not part of the sources at hand). A bump allocator with the current offset,
a `dirty` flag set on first allocation and cleared by `reset`; `resets`
counts the calls of `reset()` and exists only to observe them. -/
structure stack_allocator where
  offset : Nat
  dirty : Bool
  resets : Nat
deriving DecidableEq, Repr

/-- The per-thread `thread_storage`: three allocators and the generation. -/
structure thread_storage where
  m_allocations : Nat → stack_allocator
  m_generation : Nat

/-- The fields of `alert_manager` that the modelled member functions touch,
and the observers for its callbacks. `m_notify` and `m_dispatch` say whether
the respective `boost::function` is non-empty. -/
structure alert_manager where
  m_alert_mask : Nat
  m_queue_size_limit : Nat
  m_dispatch : Bool
  m_notify : Bool
  m_alerts_pool : alert_pool
  m_alerts : Nat → Option Alert
  m_queue_size : Nat
  m_queue_write_slot : Nat
  m_queue_read_slot : Nat
  m_thread_storage : Option thread_storage
  m_ses_extensions : List plugin
  m_ses_extensions_reliable : List plugin
  /-- Number of invocations of `m_notify()`. -/
  notify_calls : Nat
  /-- Number of invocations of `m_condition.notify_all()`. -/
  condition_notify_all_calls : Nat
  /-- The calls `(*i)->on_alert(alert)` made so far: plugin id and alert. -/
  on_alert_log : List (Nat × Alert)
  /-- The alerts handed to `m_dispatch` so far. -/
  dispatched : List Alert
  /-- The address the next `::malloc` returns. -/
  malloc_next : Nat

/-! ## `do_enqueue_alert`, sequential reading -/

/-- The slot after `current` on the ring: `next = current + 1; if (next ==
size_limit * 2) next = 0;` (lines 324-326), in exact arithmetic; in `int`
arithmetic it is `next_slot_int`. -/
def next_slot (size_limit current : Nat) : Nat :=
  if current + 1 = size_limit * 2 then 0 else current + 1

/-- The `real_size` of lines 334-336, from `next`, the loaded `read_slot` and
the value a load of `m_queue_size` gives, in exact arithmetic; in `int`
arithmetic it is `real_size_int`. -/
def real_size (size_limit next read_slot queue_size : Nat) : Nat :=
  if next > read_slot then next - read_slot
  else if next < read_slot then size_limit * 2 - (read_slot - next)
  else queue_size

/-- The tail of `do_enqueue_alert` after the slot is written (lines 356-374):
`fetch_add` on `m_queue_size`, and the callbacks when the old value was 0. -/
def publish (s : alert_manager) : alert_manager :=
  let current := s.m_queue_size
  let s1 := { s with m_queue_size := current + 1 }
  if current = 0 then
    { s1 with
      notify_calls := if s1.m_notify then s1.notify_calls + 1 else s1.notify_calls
      condition_notify_all_calls := s1.condition_notify_all_calls + 1 }
  else s1

/-- A sequential call `do_enqueue_alert(a, priority)` (lines 305-375): no
other thread runs during the call. The compare-exchange of line 345 then
succeeds at the first attempt, since `m_queue_write_slot` still holds the
value loaded at line 324. The spin of line 352 leaves at once when the slot
is `NULL` and never when it is not: the result is then `none`. The atomic
steps of the same function are `producer_step` below; a producer running
alone through them gives this result (`solo_run_eq_do_enqueue_alert`,
`solo_run_spins`). The arithmetic is exact: this is what the code computes
as long as no `int` overflows, which is so when `2 * m_queue_size_limit <=
INT_MAX`, the slot indices are inside the array and the priority is 0 or 1
(`do_enqueue_alert_int_eq`). -/
def do_enqueue_alert (s : alert_manager) (a : Alert) (priority : Nat) :
    Option (Bool × alert_manager) :=
  let size_limit := s.m_queue_size_limit
  let current := s.m_queue_write_slot
  let next := next_slot size_limit current
  let read_slot := s.m_queue_read_slot
  let rs := real_size size_limit next read_slot s.m_queue_size
  if rs ≥ size_limit * (1 + priority) then some (false, s)
  else
    let s1 := { s with m_queue_write_slot := next }
    match s1.m_alerts next with
    | some _ => none
    | none =>
      let s2 := { s1 with m_alerts := Function.update s1.m_alerts next (some a) }
      some (true, publish s2)

/-- The counters of a ring state agree: both slot indices are inside the
array, the size is at most the array length and is congruent to
`write_slot + 1 - read_slot` modulo the array length. -/
def counters_consistent (s : alert_manager) : Prop :=
  s.m_queue_write_slot < 2 * s.m_queue_size_limit ∧
  s.m_queue_read_slot < 2 * s.m_queue_size_limit ∧
  s.m_queue_size ≤ 2 * s.m_queue_size_limit ∧
  (s.m_queue_read_slot + s.m_queue_size) % (2 * s.m_queue_size_limit)
    = (s.m_queue_write_slot + 1) % (2 * s.m_queue_size_limit)

instance (s : alert_manager) : Decidable (counters_consistent s) := by
  unfold counters_consistent; infer_instance

/-! ## `do_enqueue_alert` in `int` arithmetic -/

/-- The largest value of an `int`, `2^31 - 1` (`INT_MAX` of `<climits>`). -/
def INT_MAX : Nat := 2147483647

/-- The value an `int` (32 bits, two's complement) takes when the exact
result of an addition, a subtraction or a multiplication is `x`: `x` itself
when it lies between `INT_MIN = -2^31` and `INT_MAX = 2^31 - 1`, and
otherwise `x` reduced modulo `2^32` into that range. -/
def int_wrap (x : Int) : Int := (2147483648 + x) % 4294967296 - 2147483648

/-- The `int` expression `size_limit * 2` of lines 315, 325, 335, 343 and
371. -/
def twice_limit_int (size_limit : Int) : Int := int_wrap (size_limit * 2)

/-- The `int` expression `size_limit * (1 + priority)` of lines 315 and
340. -/
def limit_for_priority_int (size_limit priority : Int) : Int :=
  int_wrap (size_limit * int_wrap (1 + priority))

/-- Lines 324-326 in `int` arithmetic: `next = current + 1; if (next ==
size_limit * 2) next = 0;`. -/
def next_slot_int (size_limit current : Int) : Int :=
  if int_wrap (current + 1) = twice_limit_int size_limit then 0 else int_wrap (current + 1)

/-- Lines 334-336 in `int` arithmetic: `real_size` from `next`, the loaded
`read_slot` and the value a load of `m_queue_size` gives. -/
def real_size_int (size_limit next read_slot queue_size : Int) : Int :=
  if next > read_slot then int_wrap (next - read_slot)
  else if next < read_slot then
    int_wrap (twice_limit_int size_limit - int_wrap (read_slot - next))
  else queue_size

/-- A sequential call `do_enqueue_alert(a, priority)` (lines 305-375) with
the locals `size_limit`, `current`, `next`, `read_slot` and `real_size` as
the 32-bit `int`s they are; the rest is as in `do_enqueue_alert`: the
compare-exchange of line 345 succeeds at once, and the result is `none` when
the slot is occupied, the spin of line 352 never leaving. A negative `next`
has no slot in the array (the access `m_alerts[next]` is then undefined); the
model takes index 0 for it, `Int.toNat` of a negative number. -/
def do_enqueue_alert_int (s : alert_manager) (a : Alert) (priority : Nat) :
    Option (Bool × alert_manager) :=
  let size_limit : Int := s.m_queue_size_limit
  let current : Int := s.m_queue_write_slot
  let next := next_slot_int size_limit current
  let read_slot : Int := s.m_queue_read_slot
  let rs := real_size_int size_limit next read_slot s.m_queue_size
  if rs ≥ limit_for_priority_int size_limit priority then some (false, s)
  else
    let s1 := { s with m_queue_write_slot := next.toNat }
    match s1.m_alerts next.toNat with
    | some _ => none
    | none =>
      let s2 := { s1 with m_alerts := Function.update s1.m_alerts next.toNat (some a) }
      some (true, publish s2)

/-! ## Drain and sequences of calls -/

/-- Modelled from the spec: the loop of the consumer's drain (the body of
`get_all` is in alert_manager.cpp, not among the sources at hand): "for i in
0..size read `slot[read_slot]` (atomic exchange with null), advance
`read_slot` mod 2L". The exchanged values are collected in `batch`. -/
def drain_loop : Nat → alert_manager → List (Option Alert) →
    alert_manager × List (Option Alert)
  | 0, s, batch => (s, batch)
  | n + 1, s, batch =>
    let x := s.m_alerts s.m_queue_read_slot
    let s1 := { s with
      m_alerts := Function.update s.m_alerts s.m_queue_read_slot none
      m_queue_read_slot := (s.m_queue_read_slot + 1) % (2 * s.m_queue_size_limit) }
    drain_loop n s1 (batch ++ [x])

/-- Modelled from the spec: the consumer's drain of the ring (alert_manager.cpp
is not among the sources at hand): "snapshot `size`, for i in 0..size read
`slot[read_slot]` (atomic exchange with null), advance `read_slot` mod 2L;
`fetch_sub(size, batch)`". Returns the new state and the batch. -/
def drain (s : alert_manager) : alert_manager × List (Option Alert) :=
  let size := s.m_queue_size
  let r := drain_loop size s []
  ({ r.1 with m_queue_size := r.1.m_queue_size - r.2.length }, r.2)

/-- A call made on the alert manager in a sequential run: an enqueue of the
alert `a` with a priority in {0, 1}, or a drain. -/
inductive op where
  | post (a : Alert) (priority : Fin 2)
  | drain
deriving DecidableEq, Repr

/-- What a call gave: the return value of `do_enqueue_alert(a, _)`, or the
batch of a drain. -/
inductive outcome where
  | posted (a : Alert) (ok : Bool)
  | drained (batch : List (Option Alert))
deriving DecidableEq, Repr

/-- One call of a sequential run; `none` when the call does not return. -/
def exec (o : op) (s : alert_manager) : Option (alert_manager × outcome) :=
  match o with
  | op.post a p =>
    match do_enqueue_alert s a p.val with
    | none => none
    | some (ok, s1) => some (s1, outcome.posted a ok)
  | op.drain => some ((drain s).1, outcome.drained (drain s).2)

/-- A sequential run: the calls one after the other, with what each gave. -/
def run_ops : List op → alert_manager → Option (alert_manager × List outcome)
  | [], s => some (s, [])
  | o :: os, s =>
    match exec o s with
    | none => none
    | some (s1, out) =>
      match run_ops os s1 with
      | none => none
      | some (s2, outs) => some (s2, out :: outs)

/-- One call of a sequential run, the enqueue in `int` arithmetic; `none`
when the call does not return. -/
def exec_int (o : op) (s : alert_manager) : Option (alert_manager × outcome) :=
  match o with
  | op.post a p =>
    match do_enqueue_alert_int s a p.val with
    | none => none
    | some (ok, s1) => some (s1, outcome.posted a ok)
  | op.drain => some ((drain s).1, outcome.drained (drain s).2)

/-- A sequential run with the enqueues in `int` arithmetic: the calls one
after the other, with what each gave. -/
def run_ops_int : List op → alert_manager → Option (alert_manager × List outcome)
  | [], s => some (s, [])
  | o :: os, s =>
    match exec_int o s with
    | none => none
    | some (s1, out) =>
      match run_ops_int os s1 with
      | none => none
      | some (s2, outs) => some (s2, out :: outs)

/-- Index `x` folded back into an array of `n` slots, for `x < 2 * n`. -/
def wrap (n x : Nat) : Nat := if n ≤ x then x - n else x

/-- The ring of limit `L` holds exactly the alerts `q`, oldest first: the
counters are consistent, `m_queue_size` is the length of `q`, the slots from
`m_queue_read_slot` on hold the alerts of `q` in order and every other slot
is `NULL`. -/
def ring_holds (L : Nat) (s : alert_manager) (q : List Alert) : Prop :=
  s.m_queue_size_limit = L ∧ 1 ≤ L ∧
  s.m_queue_write_slot < 2 * L ∧ s.m_queue_read_slot < 2 * L ∧
  s.m_queue_size = q.length ∧ q.length ≤ 2 * L ∧
  (s.m_queue_read_slot + q.length = s.m_queue_write_slot + 1 ∨
   s.m_queue_read_slot + q.length = s.m_queue_write_slot + 1 + 2 * L ∨
   s.m_queue_read_slot + q.length + 2 * L = s.m_queue_write_slot + 1) ∧
  ∀ j, j < 2 * L → s.m_alerts (wrap (2 * L) (s.m_queue_read_slot + j)) = q[j]?

/-- An empty ring of limit `L`: `size = 0`, all `2L` slots `NULL` and
`read_slot = (write_slot + 1) mod 2L`. -/
def empty_ring (L : Nat) (s : alert_manager) : Prop :=
  s.m_queue_size_limit = L ∧ 1 ≤ L ∧ s.m_queue_size = 0 ∧
  s.m_queue_write_slot < 2 * L ∧
  s.m_queue_read_slot = (s.m_queue_write_slot + 1) % (2 * L) ∧
  ∀ i, i < 2 * L → s.m_alerts i = none

instance (L : Nat) (s : alert_manager) : Decidable (empty_ring L s) := by
  unfold empty_ring; infer_instance

/-- No call is in progress on the ring: reading from `m_queue_read_slot` on,
the first `m_queue_size` slots hold an alert and every other slot of the
array is `NULL` (every reserved slot has been written and counted, every
drained slot has been freed). -/
def quiescent (s : alert_manager) : Prop :=
  ∀ j, j < 2 * s.m_queue_size_limit →
    ((s.m_alerts (wrap (2 * s.m_queue_size_limit) (s.m_queue_read_slot + j))).isSome = true
      ↔ j < s.m_queue_size)

instance (s : alert_manager) : Decidable (quiescent s) := by
  unfold quiescent; infer_instance

/-- An alert manager with an empty ring of limit `L` whose write slot is `w`,
no callback, no extension and an empty pool. -/
def empty_manager (L w : Nat) : alert_manager :=
  { m_alert_mask := 0, m_queue_size_limit := L, m_dispatch := false, m_notify := false
    m_alerts_pool := ⟨fun _ => []⟩
    m_alerts := fun _ => none
    m_queue_size := 0, m_queue_write_slot := w
    m_queue_read_slot := (w + 1) % (2 * L)
    m_thread_storage := none, m_ses_extensions := [], m_ses_extensions_reliable := []
    notify_calls := 0, condition_notify_all_calls := 0, on_alert_log := [], dispatched := []
    malloc_next := 100 }

/-- The empty ring of limit `2^30 = 1073741824`, the least limit whose
double exceeds `INT_MAX`, with write slot 0 and read slot 1. -/
def overflow_ring : alert_manager := empty_manager 1073741824 0

/-- The slots of the ring of limit `L`, read from `m_queue_read_slot` on, hold
the alerts `q` in order and `NULL` after them. -/
def slots_hold (L : Nat) (s : alert_manager) (q : List Alert) : Prop :=
  s.m_queue_size_limit = L ∧ 1 ≤ L ∧ s.m_queue_read_slot < 2 * L ∧ q.length ≤ 2 * L ∧
  ∀ j, j < 2 * L → s.m_alerts (wrap (2 * L) (s.m_queue_read_slot + j)) = q[j]?

/-! ## `do_enqueue_alert` as atomic steps of concurrent producers -/

/-- Where a producer thread stands: outside a call, or before one of the
atomic accesses of `do_enqueue_alert`. -/
inductive enqueue_pc where
  /-- Not inside `do_enqueue_alert`. -/
  | idle
  /-- Before `m_queue_write_slot.load()`, line 324. -/
  | load_write
  /-- Before `m_queue_read_slot.load()`, line 333. -/
  | load_read
  /-- Before `m_queue_size.load()`, line 336. -/
  | load_size
  /-- Before `m_queue_write_slot.compare_exchange_strong`, line 345. -/
  | cas_write
  /-- Before `m_alerts[next].compare_exchange_strong`, line 352. -/
  | cas_slot
  /-- Before `m_queue_size.fetch_add(1)`, line 356. -/
  | add_size
deriving DecidableEq, Repr

/-- A producer thread: the posts it still has to make (alert and priority),
its program point, the arguments and locals of the running call, and the
return values of its finished calls. -/
structure producer where
  todo : List (Alert × Nat)
  pc : enqueue_pc
  a : Alert
  priority : Nat
  size_limit : Nat
  current : Nat
  next : Nat
  read_slot : Nat
  real_size : Nat
  spins : Nat
  results : List (Alert × Bool)
deriving DecidableEq, Repr

/-- Lines 340-345 once `real_size` is known: return false, or go on to the
compare-exchange. The product is exact, as in `do_enqueue_alert`: it is the
`int` product of the code when `size_limit * (1 + priority) <= INT_MAX`. -/
def check_size (t : producer) (rs : Nat) : producer :=
  if rs ≥ t.size_limit * (1 + t.priority) then
    { t with real_size := rs, pc := enqueue_pc.idle, results := t.results ++ [(t.a, false)] }
  else
    { t with real_size := rs, pc := enqueue_pc.cas_write }

/-- One atomic step of a producer on the shared state. An idle producer
enters its next call (copying `m_queue_size_limit`, line 313); inside a call
the step is the next atomic access together with the local computation that
follows it, in the exact arithmetic of `next_slot` and `real_size`. -/
def producer_step (m : alert_manager) (t : producer) : alert_manager × producer :=
  match t.pc with
  | enqueue_pc.idle =>
    match t.todo with
    | [] => (m, t)
    | (a, p) :: rest =>
      (m, { t with todo := rest, a := a, priority := p, size_limit := m.m_queue_size_limit,
                   pc := enqueue_pc.load_write })
  | enqueue_pc.load_write =>
    (m, { t with current := m.m_queue_write_slot,
                 next := next_slot t.size_limit m.m_queue_write_slot,
                 pc := enqueue_pc.load_read })
  | enqueue_pc.load_read =>
    let read_slot := m.m_queue_read_slot
    let t1 := { t with read_slot := read_slot }
    if t.next > read_slot then (m, check_size t1 (t.next - read_slot))
    else if t.next < read_slot then
      (m, check_size t1 (t.size_limit * 2 - (read_slot - t.next)))
    else (m, { t1 with pc := enqueue_pc.load_size })
  | enqueue_pc.load_size => (m, check_size t m.m_queue_size)
  | enqueue_pc.cas_write =>
    if m.m_queue_write_slot = t.current then
      ({ m with m_queue_write_slot := t.next }, { t with pc := enqueue_pc.cas_slot, spins := 0 })
    else
      (m, { t with current := m.m_queue_write_slot, pc := enqueue_pc.load_write })
  | enqueue_pc.cas_slot =>
    match m.m_alerts t.next with
    | none =>
      ({ m with m_alerts := Function.update m.m_alerts t.next (some t.a) },
       { t with pc := enqueue_pc.add_size })
    | some _ => (m, { t with spins := t.spins + 1 })
  | enqueue_pc.add_size =>
    (publish m, { t with current := m.m_queue_size, pc := enqueue_pc.idle,
                         results := t.results ++ [(t.a, true)] })

/-- The alert manager shared by producer threads; `reservations` counts the
successful compare-exchanges on `m_queue_write_slot`. -/
structure system where
  shared : alert_manager
  threads : List producer
  reservations : Nat

/-- Thread `i` takes its next atomic step. -/
def system_step (i : Nat) (σ : system) : system :=
  match σ.threads[i]? with
  | none => σ
  | some t =>
    { shared := (producer_step σ.shared t).1
      threads := σ.threads.set i (producer_step σ.shared t).2
      reservations := σ.reservations +
        (if t.pc = enqueue_pc.cas_write ∧ σ.shared.m_queue_write_slot = t.current
          then 1 else 0) }

/-- An interleaving: the threads step in the order the schedule lists them. -/
def run_schedule : List Nat → system → system
  | [], σ => σ
  | i :: is, σ => run_schedule is (system_step i σ)

/-- A producer that has not started, with the posts `todo` to make. -/
def new_producer (todo : List (Alert × Nat)) : producer :=
  { todo := todo, pc := enqueue_pc.idle, a := 0, priority := 0, size_limit := 0, current := 0,
    next := 0, read_slot := 0, real_size := 0, spins := 0, results := [] }

/-- The system of one producer per list of posts, nothing done yet. -/
def initial_system (m : alert_manager) (posts : List (List (Alert × Nat))) : system :=
  { shared := m, threads := posts.map new_producer, reservations := 0 }

/-- The number of calls of a sequential run at which the queue goes from
empty (`m_queue_size = 0` before the call) to non-empty (after it). -/
def empty_to_nonempty : List op → alert_manager → Nat
  | [], _ => 0
  | o :: os, s =>
    match exec o s with
    | none => 0
    | some (s1, _) =>
      (if s.m_queue_size = 0 ∧ s1.m_queue_size ≠ 0 then 1 else 0) + empty_to_nonempty os s1

/-- The alert manager `empty_manager L w` with a notify function installed. -/
def notifying_manager (L w : Nat) : alert_manager :=
  { empty_manager L w with m_notify := true }

/-! ## Allocators, pool, extensions and `emplace_alert` -/

/-- Modelled from the spec: `stack_allocator::reset()`, "sets offset to 0 and
clears `dirty`"; the call is counted in `resets`. -/
def stack_allocator.reset (al : stack_allocator) : stack_allocator :=
  { offset := 0, dirty := false, resets := al.resets + 1 }

/-- Modelled from the spec: an allocation of `n` bytes with alignment `a`
in a `stack_allocator`, "rounds the current offset up to `a`" and sets
`dirty`. The backing buffer and the returned offset are not modelled. -/
def stack_allocator.alloc (al : stack_allocator) (n a : Nat) : stack_allocator :=
  { al with offset := (if a = 0 then al.offset else (al.offset + a - 1) / a * a) + n
            dirty := true }

/-- The state `thread_storage()` constructs: generation 0 and three fresh
allocators. -/
def thread_storage.init : thread_storage :=
  { m_allocations := fun _ => { offset := 0, dirty := false, resets := 0 }, m_generation := 0 }

/-- `thread_storage::current_allocator()`, lines 145-148. -/
def thread_storage.current_allocator (ts : thread_storage) : stack_allocator :=
  ts.m_allocations ts.m_generation

/-- `thread_storage::swap_allocators()`, lines 154-167. -/
def thread_storage.swap_allocators (ts : thread_storage) : thread_storage :=
  let index := ts.m_generation
  if !(ts.m_allocations index).dirty then ts
  else
    let index := if index + 1 = 3 then 0 else index + 1
    { m_allocations := Function.update ts.m_allocations index (ts.m_allocations index).reset
      m_generation := index }

/-- The owner thread allocates `n` bytes (alignment `a`) in its current
allocator, as the constructor of an alert does with the allocator it is
given. -/
def thread_storage.owner_alloc (ts : thread_storage) (n a : Nat) : thread_storage :=
  { ts with m_allocations :=
      Function.update ts.m_allocations ts.m_generation (ts.current_allocator.alloc n a) }

/-- The static members of an alert class `T` that `alert_manager` uses
(`T::alert_type`, `T::priority`, `T::static_category`), and the number of
bytes the constructor of `T` takes from the allocator it is given (the alert
classes are declared in alert_types.hpp, not among the sources at hand). -/
structure alert_class where
  alert_type : Nat
  priority : Nat
  static_category : Nat
  ctor_bytes : Nat
deriving DecidableEq, Repr

/-- `alert_pool::acquire`, lines 105-123, for the alert type `type`: the
block returned, the pool afterwards and the next `::malloc` address. -/
def alert_pool.acquire (pool : alert_pool) (type : Nat) (malloc_next : Nat) :
    Alert × alert_pool × Nat :=
  match pool.m_pool type with
  | [] => (malloc_next, pool, malloc_next + 1)
  | front :: rest => (front, { m_pool := Function.update pool.m_pool type rest }, malloc_next)

/-- `alert_pool::release`, lines 125-131; `type` is `alert->type()`. -/
def alert_pool.release (pool : alert_pool) (alert : Alert) (type : Nat) : alert_pool :=
  { m_pool := Function.update pool.m_pool type (pool.m_pool type ++ [alert]) }

/-- `notify_extensions`, lines 436-450, with exceptions enabled
(`TORRENT_TRY` is `try`, `TORRENT_CATCH (x)` is `catch (x)`): `on_alert` is
called on the extensions of the list in order; a `std::exception` it raises
is caught and ignored and the loop goes on; an exception of another type
matches no handler and leaves the function, which the second component
tells. -/
def notify_extensions (alert : Alert) : List plugin → alert_manager → alert_manager × Bool
  | [], s => (s, false)
  | p :: ps, s =>
    let s1 := { s with on_alert_log := s.on_alert_log ++ [(p.id, alert)] }
    match p.on_alert alert with
    | hook_outcome.returns => notify_extensions alert ps s1
    | hook_outcome.std_exception => notify_extensions alert ps s1
    | hook_outcome.other_exception => (s1, true)

/-- The state of `emplace_alert<T>` when it calls `do_enqueue_alert` (lines
191-210, no dispatch function): the thread storage exists, the block is taken
from the pool and the alert is constructed in it with the current
allocator. The first component is the alert. -/
def emplace_prepare (T : alert_class) (s : alert_manager) : Alert × alert_manager :=
  let ts := match s.m_thread_storage with
    | none => thread_storage.init
    | some ts => ts
  let r := s.m_alerts_pool.acquire T.alert_type s.malloc_next
  (r.1, { s with m_thread_storage := some (ts.owner_alloc T.ctor_bytes 1)
                 m_alerts_pool := r.2.1
                 malloc_next := r.2.2 })

/-- A sequential call `emplace_alert<T>(args...)`, lines 183-228, built with
the deprecated dispatch function and with extensions. The scoped shared lock
of line 187 is taken and released around the body and is left out: no
exclusive holder exists during a sequential call. `none` when
`do_enqueue_alert` does not return; `call_end.raised` when an exception
leaves `notify_extensions`, which `emplace_alert` does not catch. -/
def emplace_alert (T : alert_class) (s : alert_manager) :
    Option (call_end × alert_manager) :=
  if s.m_dispatch then
    let ts := match s.m_thread_storage with
      | none => thread_storage.init
      | some ts => ts
    some (call_end.returned false,
      { s with m_thread_storage := some (ts.owner_alloc T.ctor_bytes 1)
               dispatched := s.dispatched ++ [s.malloc_next]
               malloc_next := s.malloc_next + 1 })
  else
    let r := emplace_prepare T s
    match do_enqueue_alert r.2 r.1 T.priority with
    | none => none
    | some (false, s2) =>
      if !s2.m_ses_extensions_reliable.isEmpty then
        let n := notify_extensions r.1 s2.m_ses_extensions_reliable s2
        if n.2 then some (call_end.raised, n.1)
        else some (call_end.returned false,
          { n.1 with m_alerts_pool := n.1.m_alerts_pool.release r.1 T.alert_type })
      else some (call_end.returned false,
        { s2 with m_alerts_pool := s2.m_alerts_pool.release r.1 T.alert_type })
    | some (true, s2) =>
      let n := notify_extensions r.1 s2.m_ses_extensions s2
      if n.2 then some (call_end.raised, n.1) else some (call_end.returned true, n.1)

/-- No hook of the list raises anything but a `std::exception` when handed
the alert. -/
def hooks_std (ps : List plugin) (alert : Alert) : Prop :=
  ∀ p ∈ ps, p.on_alert alert ≠ hook_outcome.other_exception

instance (ps : List plugin) (alert : Alert) : Decidable (hooks_std ps alert) := by
  unfold hooks_std; infer_instance

/-- The alert class of the scenarios: type 5, priority 1, no payload. -/
def urgent_class : alert_class :=
  { alert_type := 5, priority := 1, static_category := 1, ctor_bytes := 0 }

/-- Scenario S4: limit 1 and one extension, number 7, in the reliable
list. -/
def reliable_manager : alert_manager :=
  { empty_manager 1 0 with
    m_ses_extensions_reliable := [⟨7, fun _ => hook_outcome.returns⟩] }

/-- An alert manager of limit 1 with the extension number 7 both in
`m_ses_extensions` and in `m_ses_extensions_reliable`. -/
def shared_extension_manager : alert_manager :=
  { empty_manager 1 0 with
    m_ses_extensions := [⟨7, fun _ => hook_outcome.returns⟩]
    m_ses_extensions_reliable := [⟨7, fun _ => hook_outcome.returns⟩] }

/-! ## `shared_lock` as atomic steps of concurrent threads -/

/-- The fields of `shared_lock` (thread.hpp, lines 159-161); `m_mutex` tells
whether the mutex is locked. -/
structure shared_lock where
  m_shared_locks : Int
  m_exclusive_lock : Bool
  m_mutex : Bool
deriving DecidableEq, Repr

/-- Where a thread stands with respect to the latch: each point is named
after the atomic access of `lock` or `unlock` that comes next. -/
inductive latch_pc where
  /-- Outside `lock` and `unlock`, holding nothing. -/
  | idle
  /-- In `lock(exclusive)`, before `m_mutex.lock()`, line 121. -/
  | x_mutex
  /-- In `lock(exclusive)`, before `m_exclusive_lock.store(true)`, line 122. -/
  | x_store
  /-- In `lock(exclusive)`, before `m_shared_locks.load()`, line 125. -/
  | x_wait
  /-- Past `lock(exclusive)` and not yet in `unlock(exclusive)`. -/
  | x_held
  /-- In `unlock(exclusive)`, before `m_mutex.unlock()`, line 150. -/
  | x_release
  /-- In `lock(shared)`, before `m_shared_locks.fetch_add(1)`, line 131. -/
  | s_add
  /-- In `lock(shared)`, before `m_exclusive_lock.load()`, line 133. -/
  | s_check
  /-- In `lock(shared)`, before `m_shared_locks.fetch_add(-1)`, line 138. -/
  | s_undo
  /-- In `lock(shared)`, before the `mutex::scoped_lock` locks, line 139. -/
  | s_mutex
  /-- In `lock(shared)`, before `m_shared_locks.fetch_add(1)`, line 140. -/
  | s_readd
  /-- In `lock(shared)`, before the `mutex::scoped_lock` unlocks, line 141. -/
  | s_unlock
  /-- Past `lock(shared)` and not yet in `unlock(shared)`. -/
  | s_held
deriving DecidableEq, Repr

/-- One atomic step of a thread on the latch. An idle thread calls
`lock(exclusive)` or `lock(shared)` as `exclusive` says; a thread that holds
the latch calls the matching `unlock`; a thread that finds the mutex locked,
or that spins at line 125, stays where it is. -/
def shared_lock_step (exclusive : Bool) (l : shared_lock) (pc : latch_pc) :
    shared_lock × latch_pc :=
  match pc with
  | latch_pc.idle => if exclusive then (l, latch_pc.x_mutex) else (l, latch_pc.s_add)
  | latch_pc.x_mutex =>
    if l.m_mutex then (l, latch_pc.x_mutex)
    else ({ l with m_mutex := true }, latch_pc.x_store)
  | latch_pc.x_store => ({ l with m_exclusive_lock := true }, latch_pc.x_wait)
  | latch_pc.x_wait =>
    if l.m_shared_locks > 0 then (l, latch_pc.x_wait) else (l, latch_pc.x_held)
  | latch_pc.x_held => ({ l with m_exclusive_lock := false }, latch_pc.x_release)
  | latch_pc.x_release => ({ l with m_mutex := false }, latch_pc.idle)
  | latch_pc.s_add => ({ l with m_shared_locks := l.m_shared_locks + 1 }, latch_pc.s_check)
  | latch_pc.s_check =>
    if l.m_exclusive_lock then (l, latch_pc.s_undo) else (l, latch_pc.s_held)
  | latch_pc.s_undo => ({ l with m_shared_locks := l.m_shared_locks + -1 }, latch_pc.s_mutex)
  | latch_pc.s_mutex =>
    if l.m_mutex then (l, latch_pc.s_mutex)
    else ({ l with m_mutex := true }, latch_pc.s_readd)
  | latch_pc.s_readd => ({ l with m_shared_locks := l.m_shared_locks + 1 }, latch_pc.s_unlock)
  | latch_pc.s_unlock => ({ l with m_mutex := false }, latch_pc.s_held)
  | latch_pc.s_held => ({ l with m_shared_locks := l.m_shared_locks + -1 }, latch_pc.idle)

/-- The latch and the threads that use it. -/
structure latch_system where
  latch : shared_lock
  threads : List latch_pc
deriving DecidableEq, Repr

/-- Thread `i` takes its next atomic step; `exclusive` is the lock type it
asks for when it is idle. -/
def latch_system_step (i : Nat) (exclusive : Bool) (σ : latch_system) : latch_system :=
  match σ.threads[i]? with
  | none => σ
  | some pc =>
    { latch := (shared_lock_step exclusive σ.latch pc).1
      threads := σ.threads.set i (shared_lock_step exclusive σ.latch pc).2 }

/-- An interleaving of latch steps. -/
def run_latch : List (Nat × Bool) → latch_system → latch_system
  | [], σ => σ
  | (i, x) :: rest, σ => run_latch rest (latch_system_step i x σ)

/-- The latch as `shared_lock()` constructs it (line 115) with the mutex
free, and `n` idle threads. -/
def initial_latch (n : Nat) : latch_system :=
  { latch := { m_shared_locks := 0, m_exclusive_lock := false, m_mutex := false }
    threads := List.replicate n latch_pc.idle }

/-- One for a thread that has added itself to `m_shared_locks` and not yet
taken itself off. -/
def counts_shared : latch_pc → Nat
  | latch_pc.s_check => 1
  | latch_pc.s_undo => 1
  | latch_pc.s_unlock => 1
  | latch_pc.s_held => 1
  | _ => 0

/-- One for a thread that has locked `m_mutex`. -/
def holds_mutex : latch_pc → Nat
  | latch_pc.x_store => 1
  | latch_pc.x_wait => 1
  | latch_pc.x_held => 1
  | latch_pc.x_release => 1
  | latch_pc.s_readd => 1
  | latch_pc.s_unlock => 1
  | _ => 0

/-- One for a thread that has set `m_exclusive_lock` and not yet cleared it. -/
def raised_flag : latch_pc → Nat
  | latch_pc.x_wait => 1
  | latch_pc.x_held => 1
  | _ => 0

/-- One for a thread past `lock(exclusive)`. -/
def in_exclusive : latch_pc → Nat
  | latch_pc.x_held => 1
  | _ => 0

/-- One for a thread past `lock(shared)`. -/
def in_shared : latch_pc → Nat
  | latch_pc.s_held => 1
  | _ => 0

/-- The invariant of the latch: `m_shared_locks` counts the threads that
added themselves, the mutex and the flag are held by at most one thread, and
exclusive and shared holders do not coexist. -/
def latch_inv (σ : latch_system) : Prop :=
  σ.latch.m_shared_locks = ((σ.threads.map counts_shared).sum : Nat) ∧
  (σ.threads.map holds_mutex).sum = (if σ.latch.m_mutex then 1 else 0) ∧
  (σ.threads.map raised_flag).sum = (if σ.latch.m_exclusive_lock then 1 else 0) ∧
  ((σ.threads.map in_exclusive).sum = 0 ∨ (σ.threads.map in_shared).sum = 0)

/-! ## The arenas of a thread between two drains -/

/-- The owner thread makes the allocations `allocs` (size and alignment) one
after the other in its current allocator. -/
def owner_allocs : List (Nat × Nat) → thread_storage → thread_storage
  | [], ts => ts
  | (n, a) :: rest, ts => owner_allocs rest (ts.owner_alloc n a)

/-- The owner allocates `pre`, the consumer calls `swap_allocators()` (first
drain), the owner allocates `mid`, the consumer calls `swap_allocators()`
again (next drain), the owner allocates `post`. -/
def two_drains (pre mid post : List (Nat × Nat)) (ts : thread_storage) : thread_storage :=
  owner_allocs post
    (owner_allocs mid (owner_allocs pre ts).swap_allocators).swap_allocators

/-- The allocator `g` was not reset between `ts` and `ts'`: no call of
`reset()` was counted and what was allocated in it is still there. -/
def arena_kept (g : Nat) (ts ts' : thread_storage) : Prop :=
  (ts'.m_allocations g).resets = (ts.m_allocations g).resets ∧
  (ts.m_allocations g).offset ≤ (ts'.m_allocations g).offset ∧
  ((ts.m_allocations g).dirty = true → (ts'.m_allocations g).dirty = true)

instance (g : Nat) (ts ts' : thread_storage) : Decidable (arena_kept g ts ts') := by
  unfold arena_kept; infer_instance

/-- A thread storage in generation 2 whose three allocators are in use. -/
def busy_storage : thread_storage :=
  { m_allocations := fun i => { offset := 8 * (i + 1), dirty := true, resets := i }
    m_generation := 2 }

/-- Three producers with one priority-1 post each on an empty ring of
limit 1 (two slots, write slot 0, read slot 1). -/
def three_producers : system :=
  initial_system (empty_manager 1 0) [[(1, 1)], [(2, 1)], [(3, 1)]]

/-- Producers 0 and 1 run up to and including their compare-exchange on
`m_queue_write_slot`; neither has reached `m_queue_size.fetch_add(1)`. -/
def two_reserved : List Nat := [0, 0, 0, 0, 0, 1, 1, 1, 1]

/-- Producer 2 enters its call and loads `m_queue_write_slot`,
`m_queue_read_slot` and `m_queue_size`. -/
def third_loads : List Nat := [2, 2, 2, 2]

/-- The plugin with a hook that returns whatever it is handed. -/
def calm (p : plugin) : plugin := { p with on_alert := fun _ => hook_outcome.returns }

/-- The alert manager with every hook of both extension lists replaced by
one that returns. -/
def calm_hooks (s : alert_manager) : alert_manager :=
  { s with m_ses_extensions := s.m_ses_extensions.map calm
           m_ses_extensions_reliable := s.m_ses_extensions_reliable.map calm }

/-- Three extensions, the second of which raises a `std::exception`. -/
def std_throwing_list : List plugin :=
  [⟨1, fun _ => hook_outcome.returns⟩, ⟨2, fun _ => hook_outcome.std_exception⟩,
   ⟨3, fun _ => hook_outcome.returns⟩]

/-- Two extensions, the first of which raises an object that is not a
`std::exception`. -/
def other_throwing_list : List plugin :=
  [⟨1, fun _ => hook_outcome.other_exception⟩, ⟨2, fun _ => hook_outcome.returns⟩]

/-- An alert manager of limit 1 with `other_throwing_list` as its
extensions. -/
def other_throwing_manager : alert_manager :=
  { empty_manager 1 0 with m_ses_extensions := other_throwing_list }

/-! ## The alert mask -/

/-- `set_alert_mask(m)`, lines 261-267; the parameter is a
`boost::uint32_t`, so what is stored is `m` modulo 2^32. -/
def set_alert_mask (s : alert_manager) (m : Nat) : alert_manager :=
  { s with m_alert_mask := m % 2 ^ 32 }

/-- `alert_mask()`, lines 269-272: the value returned and the state, which a
load leaves as it is. -/
def alert_mask (s : alert_manager) : Nat × alert_manager :=
  (s.m_alert_mask, s)

/-- `should_post<T>()`, lines 239-257: the mask AND `T::static_category`
(a non-negative `int`), converted to `bool`; and the state, which a load
leaves as it is. -/
def should_post (T : alert_class) (s : alert_manager) : Bool × alert_manager :=
  ((s.m_alert_mask &&& T.static_category) != 0, s)

/-! ## Sequences of calls on the pool -/

/-- A call on the `alert_pool`: `acquire` for an alert type, or `release` of
a block whose alert has the given type. -/
inductive pool_op where
  | acquire (type : Nat)
  | release (alert : Alert) (type : Nat)
deriving DecidableEq, Repr

/-- The pool, the address the next `::malloc` returns, and the blocks that
were returned by an `acquire` and not released since (`held`, an observer). -/
structure pool_state where
  pool : alert_pool
  malloc_next : Nat
  held : List Alert

/-- One call on the pool: the state afterwards and, for `acquire`, the block
returned. -/
def pool_step (o : pool_op) (σ : pool_state) : pool_state × Option Alert :=
  match o with
  | pool_op.acquire type =>
    ({ pool := (σ.pool.acquire type σ.malloc_next).2.1
       malloc_next := (σ.pool.acquire type σ.malloc_next).2.2
       held := (σ.pool.acquire type σ.malloc_next).1 :: σ.held },
     some (σ.pool.acquire type σ.malloc_next).1)
  | pool_op.release alert type =>
    ({ pool := σ.pool.release alert type, malloc_next := σ.malloc_next
       held := σ.held.erase alert }, none)

/-- A sequence of calls on the pool: the state afterwards and what each call
returned. -/
def pool_run : List pool_op → pool_state → pool_state × List (Option Alert)
  | [], σ => (σ, [])
  | o :: os, σ =>
    ((pool_run os (pool_step o σ).1).1, (pool_step o σ).2 :: (pool_run os (pool_step o σ).1).2)

/-- Every `release` of the sequence is given a block that is held at that
moment: one that an `acquire` returned and that was not released since. -/
def releases_held : List pool_op → pool_state → Prop
  | [], _ => True
  | o :: os, σ =>
    (match o with
      | pool_op.acquire _ => True
      | pool_op.release alert _ => alert ∈ σ.held) ∧ releases_held os (pool_step o σ).1

/-- No `acquire` of the sequence returns a block that is held at that
moment, that is, one that an earlier `acquire` returned with no `release` of
it in between. -/
def never_twice : List pool_op → pool_state → Prop
  | [], _ => True
  | o :: os, σ =>
    (match (pool_step o σ).2 with
      | none => True
      | some b => b ∉ σ.held) ∧ never_twice os (pool_step o σ).1

/-- The blocks of the free lists and the held blocks are pairwise distinct
and were all returned by `::malloc` before. -/
def pool_ok (σ : pool_state) : Prop :=
  (∀ k, (σ.pool.m_pool k).Nodup) ∧
  (∀ k k', k ≠ k' → ∀ b ∈ σ.pool.m_pool k, b ∉ σ.pool.m_pool k') ∧
  (∀ k, ∀ b ∈ σ.pool.m_pool k, b ∉ σ.held) ∧
  σ.held.Nodup ∧
  (∀ k, ∀ b ∈ σ.pool.m_pool k, b < σ.malloc_next) ∧
  (∀ b ∈ σ.held, b < σ.malloc_next)

/-- The pool as `alert_pool()` constructs it, nothing handed out, with
`::malloc` about to return the address `m`. -/
def empty_pool (m : Nat) : pool_state :=
  { pool := { m_pool := fun _ => [] }, malloc_next := m, held := [] }

/-- A sequence that releases the block 7 twice and then acquires twice. -/
def double_release : List pool_op :=
  [pool_op.release 7 5, pool_op.release 7 5, pool_op.acquire 5, pool_op.acquire 5]

/-- A sequence that follows the protocol: two blocks are acquired, released
in the other order and acquired again, then a third one is asked for. -/
def reuse_sequence : List pool_op :=
  [pool_op.acquire 5, pool_op.acquire 5, pool_op.release 101 5, pool_op.release 100 5,
   pool_op.acquire 5, pool_op.acquire 5, pool_op.acquire 5]

/-- What every producer knows about its slot index, for a ring of limit `L`:
inside a call its copy of the limit is `L`, and from the load of the write
slot on its `next` is an index of the array. -/
def index_ok (L : Nat) (t : producer) : Prop :=
  match t.pc with
  | enqueue_pc.idle => True
  | enqueue_pc.load_write => t.size_limit = L
  | enqueue_pc.load_read => t.size_limit = L ∧ t.next < 2 * L
  | enqueue_pc.load_size => t.size_limit = L ∧ t.next < 2 * L
  | enqueue_pc.cas_write => t.size_limit = L ∧ t.next < 2 * L
  | enqueue_pc.cas_slot => t.size_limit = L ∧ t.next < 2 * L
  | enqueue_pc.add_size => t.size_limit = L ∧ t.next < 2 * L

/-- The write slot of the shared ring and the slot index of every producer
are indices of the array of `2L` slots. -/
def index_inv (L : Nat) (σ : system) : Prop :=
  σ.shared.m_queue_size_limit = L ∧ σ.shared.m_queue_write_slot < 2 * L ∧
  ∀ t ∈ σ.threads, index_ok L t

/-- The ring of limit 1 after one accepted alert: write slot 1, read slot 1,
size 1, the alert 5 in slot 1. -/
def one_held_ring : alert_manager :=
  { empty_manager 1 0 with
    m_queue_size := 1, m_queue_write_slot := 1
    m_alerts := fun i => if i = 1 then some 5 else none }

/-- An alert manager of limit 1 with a dispatch function, a notify function
and the extension 7 in both lists. -/
def dispatching_manager : alert_manager :=
  { shared_extension_manager with m_dispatch := true, m_notify := true }

/-! # Theorems -/

/-- A number below twice the modulus is its remainder, or exceeds it by the
modulus. -/
theorem mod_cases_lt_two (x m : Nat) (_hm : 0 < m) (hx : x < 2 * m) :
    (x < m ∧ x % m = x) ∨ (m ≤ x ∧ x % m + m = x) := by
  rcases Nat.lt_or_ge x m with h | h
  · exact Or.inl ⟨h, Nat.mod_eq_of_lt h⟩
  · right
    refine ⟨h, ?_⟩
    have h1 : x % m = (x - m) % m := Nat.mod_eq_sub_mod h
    have h2 : (x - m) % m = x - m := Nat.mod_eq_of_lt (by omega)
    omega

/-- The counters of a consistent ring, without remainders. -/
theorem counters_consistent_cases (s : alert_manager) (h : counters_consistent s) :
    s.m_queue_write_slot < 2 * s.m_queue_size_limit ∧
    s.m_queue_read_slot < 2 * s.m_queue_size_limit ∧
    s.m_queue_size ≤ 2 * s.m_queue_size_limit ∧
    (s.m_queue_read_slot + s.m_queue_size = s.m_queue_write_slot + 1 ∨
     s.m_queue_read_slot + s.m_queue_size
        = s.m_queue_write_slot + 1 + 2 * s.m_queue_size_limit ∨
     s.m_queue_read_slot + s.m_queue_size + 2 * s.m_queue_size_limit
        = s.m_queue_write_slot + 1) := by
  obtain ⟨hw, hr, hs, hm⟩ := h
  refine ⟨hw, hr, hs, ?_⟩
  have hpos : 0 < 2 * s.m_queue_size_limit := by omega
  have h1 := mod_cases_lt_two (s.m_queue_read_slot + s.m_queue_size)
    (2 * s.m_queue_size_limit) hpos (by omega)
  have h2 := mod_cases_lt_two (s.m_queue_write_slot + 1)
    (2 * s.m_queue_size_limit) hpos (by omega)
  omega

/-- In a ring state with consistent counters the `real_size` of exact
arithmetic equals `m_queue_size`; the call returns false exactly when
`size >= L*(1+p)`, leaving the state as it was, and returns true exactly when
`size < L*(1+p)` and the slot after `write_slot` is `NULL`. -/
theorem do_enqueue_alert_counters (s : alert_manager) (a : Alert) (p : Nat)
    (h : counters_consistent s) :
    real_size s.m_queue_size_limit
        (next_slot s.m_queue_size_limit s.m_queue_write_slot)
        s.m_queue_read_slot s.m_queue_size = s.m_queue_size ∧
    (do_enqueue_alert s a p = some (false, s)
      ↔ s.m_queue_size_limit * (1 + p) ≤ s.m_queue_size) ∧
    ((∃ s', do_enqueue_alert s a p = some (true, s'))
      ↔ (s.m_queue_size < s.m_queue_size_limit * (1 + p) ∧
         s.m_alerts (next_slot s.m_queue_size_limit s.m_queue_write_slot) = none)) := by
  obtain ⟨hw, hr, hs, hc⟩ := counters_consistent_cases s h
  have hrs : real_size s.m_queue_size_limit
        (next_slot s.m_queue_size_limit s.m_queue_write_slot)
        s.m_queue_read_slot s.m_queue_size = s.m_queue_size := by
    unfold real_size next_slot
    split_ifs <;> omega
  refine ⟨hrs, ?_, ?_⟩
  · unfold do_enqueue_alert
    simp only [hrs]
    by_cases hge : s.m_queue_size ≥ s.m_queue_size_limit * (1 + p)
    · simp [hge]
    · simp only [hge, if_false]
      have : ¬ s.m_queue_size_limit * (1 + p) ≤ s.m_queue_size := hge
      simp only [this, iff_false]
      cases s.m_alerts (next_slot s.m_queue_size_limit s.m_queue_write_slot) <;> simp
  · unfold do_enqueue_alert
    simp only [hrs]
    by_cases hge : s.m_queue_size ≥ s.m_queue_size_limit * (1 + p)
    · simp only [hge, if_true]
      constructor
      · rintro ⟨s', hs'⟩
        simp at hs'
      · rintro ⟨hlt, -⟩
        omega
    · simp only [hge, if_false]
      have hlt : s.m_queue_size < s.m_queue_size_limit * (1 + p) := by omega
      cases hsl : s.m_alerts (next_slot s.m_queue_size_limit s.m_queue_write_slot) <;>
        simp [hlt]

/-! ## `int` arithmetic -/

theorem int_wrap_of_range (x : Int) (h1 : -2147483648 ≤ x) (h2 : x < 2147483648) :
    int_wrap x = x := by
  unfold int_wrap; omega

theorem int_wrap_ge (x : Int) : -2147483648 ≤ int_wrap x := by
  unfold int_wrap; omega

theorem limit_for_priority_int_eq (L p : Nat) (hb : 2 * L ≤ INT_MAX) (hp : p ≤ 1) :
    limit_for_priority_int L p = ((L * (1 + p) : Nat) : Int) := by
  simp only [INT_MAX] at hb
  have h : p = 0 ∨ p = 1 := by omega
  rcases h with rfl | rfl
  · have h1 : int_wrap (1 + ((0 : Nat) : Int)) = 1 := by unfold int_wrap; decide
    unfold limit_for_priority_int
    rw [h1, int_wrap_of_range _ (by omega) (by omega)]
    push_cast; ring
  · have h1 : int_wrap (1 + ((1 : Nat) : Int)) = 2 := by unfold int_wrap; decide
    unfold limit_for_priority_int
    rw [h1, int_wrap_of_range _ (by omega) (by omega)]
    push_cast; ring

theorem next_slot_int_eq (L w : Nat) (hb : 2 * L ≤ INT_MAX) (hw : w < 2 * L) :
    next_slot_int L w = ((next_slot L w : Nat) : Int) := by
  simp only [INT_MAX] at hb
  unfold next_slot_int next_slot twice_limit_int int_wrap
  split_ifs <;> omega

theorem real_size_int_eq (L next r size : Nat) (hb : 2 * L ≤ INT_MAX)
    (hn : next < 2 * L) (hr : r < 2 * L) :
    real_size_int L next r size = ((real_size L next r size : Nat) : Int) := by
  simp only [INT_MAX] at hb
  unfold real_size_int real_size twice_limit_int int_wrap
  split_ifs <;> omega

/-- When `2 * m_queue_size_limit` fits in an `int`, both slot indices are
inside the array and the priority is 0 or 1, no `int` of the call overflows:
the call in `int` arithmetic is the call in exact arithmetic. -/
theorem do_enqueue_alert_int_eq (s : alert_manager) (a : Alert) (p : Nat)
    (hb : 2 * s.m_queue_size_limit ≤ INT_MAX)
    (hw : s.m_queue_write_slot < 2 * s.m_queue_size_limit)
    (hr : s.m_queue_read_slot < 2 * s.m_queue_size_limit) (hp : p ≤ 1) :
    do_enqueue_alert_int s a p = do_enqueue_alert s a p := by
  have hn := next_slot_int_eq _ _ hb hw
  have hrs := real_size_int_eq s.m_queue_size_limit
    (next_slot s.m_queue_size_limit s.m_queue_write_slot) s.m_queue_read_slot
    s.m_queue_size hb (by unfold next_slot; split_ifs <;> omega) hr
  have hl := limit_for_priority_int_eq s.m_queue_size_limit p hb hp
  unfold do_enqueue_alert_int do_enqueue_alert
  simp only [hn, hrs, hl, Int.toNat_ofNat, ge_iff_le, Nat.cast_le]

/-- At the limit `2^30` the `int` product `size_limit * (1 + 1)` is
`INT_MIN`. -/
theorem limit_for_priority_int_overflow :
    limit_for_priority_int ((1073741824 : Nat) : Int) ((1 : Nat) : Int) = -2147483648 := by
  simp only [limit_for_priority_int, int_wrap]
  decide

/-- At the limit `2^30` the product `size_limit * (1 + 1)` is `INT_MIN`, which
no `real_size` is below: every priority-1 call is rejected, in any state. -/
theorem do_enqueue_alert_int_overflow (s : alert_manager) (a : Alert)
    (hL : s.m_queue_size_limit = 1073741824) :
    do_enqueue_alert_int s a 1 = some (false, s) := by
  have hcap := limit_for_priority_int_overflow
  have hrs : ∀ n r : Int, -2147483648 ≤
      real_size_int ((1073741824 : Nat) : Int) n r (s.m_queue_size : Int) := by
    intro n r
    unfold real_size_int
    split_ifs
    · exact int_wrap_ge _
    · exact int_wrap_ge _
    · omega
  unfold do_enqueue_alert_int
  simp only [hL, hcap]
  rw [if_pos (hrs _ _)]

/-- A ring that holds a FIFO is quiescent and its counters are consistent. -/
theorem ring_holds_quiescent (L : Nat) (s : alert_manager) (q : List Alert)
    (h : ring_holds L s q) : counters_consistent s ∧ quiescent s := by
  obtain ⟨hL, h1, hw, hr, hsz, hlen, hc, hsl⟩ := h
  subst hL
  refine ⟨⟨hw, hr, by omega, ?_⟩, ?_⟩
  · rw [hsz]
    rcases hc with hc | hc | hc
    · rw [hc]
    · rw [hc, Nat.add_mod_right]
    · rw [← hc, Nat.add_mod_right]
  · intro j hj
    rw [hsl j hj, hsz]
    by_cases hlt : j < q.length
    · simp [hlt, List.getElem?_eq_getElem hlt]
    · simp [hlt, List.getElem?_eq_none (by omega : q.length ≤ j)]

/-- In a quiescent ring with consistent counters that is not full the slot
after the write slot is `NULL`. -/
theorem quiescent_next_free (s : alert_manager) (h : counters_consistent s)
    (hq : quiescent s) (hlt : s.m_queue_size < 2 * s.m_queue_size_limit) :
    s.m_alerts (next_slot s.m_queue_size_limit s.m_queue_write_slot) = none := by
  obtain ⟨hw, hr, hs, hc⟩ := counters_consistent_cases s h
  have hnx : next_slot s.m_queue_size_limit s.m_queue_write_slot
      = wrap (2 * s.m_queue_size_limit) (s.m_queue_read_slot + s.m_queue_size) := by
    unfold next_slot wrap
    split_ifs <;> omega
  have h1 := hq s.m_queue_size hlt
  rw [← hnx] at h1
  cases hsl : s.m_alerts (next_slot s.m_queue_size_limit s.m_queue_write_slot) with
  | none => rfl
  | some v =>
    rw [hsl] at h1
    simp at h1

/-- C1, as amended: for every limit `L >= 1` with `2L <= INT_MAX`, every
priority `p` in {0, 1} and every quiescent ring state whose counters are
consistent, the `real_size` that `do_enqueue_alert` computes (in `int`
arithmetic) equals `m_queue_size`, the call returns true exactly when
`size < L*(1+p)`, and it returns false, leaving the state as it was, exactly
when `size >= L*(1+p)`. -/
theorem do_enqueue_alert_admission (s : alert_manager) (a : Alert) (p : Nat) (hp : p ≤ 1)
    (hb : 2 * s.m_queue_size_limit ≤ INT_MAX)
    (h : counters_consistent s) (hq : quiescent s) :
    real_size_int s.m_queue_size_limit
        (next_slot_int s.m_queue_size_limit s.m_queue_write_slot)
        s.m_queue_read_slot s.m_queue_size = s.m_queue_size ∧
    ((∃ s', do_enqueue_alert_int s a p = some (true, s'))
      ↔ s.m_queue_size < s.m_queue_size_limit * (1 + p)) ∧
    (do_enqueue_alert_int s a p = some (false, s)
      ↔ s.m_queue_size_limit * (1 + p) ≤ s.m_queue_size) := by
  obtain ⟨hw, hr, hs, -⟩ := counters_consistent_cases s h
  obtain ⟨hrs, hfalse, htrue⟩ := do_enqueue_alert_counters s a p h
  have hle : s.m_queue_size_limit * (1 + p) ≤ 2 * s.m_queue_size_limit := by
    have := Nat.mul_le_mul_left s.m_queue_size_limit (show 1 + p ≤ 2 by omega)
    omega
  rw [do_enqueue_alert_int_eq s a p hb hw hr hp]
  refine ⟨?_, ?_, hfalse⟩
  · rw [next_slot_int_eq _ _ hb hw,
      real_size_int_eq _ _ _ _ hb (by unfold next_slot; split_ifs <;> omega) hr, hrs]
  · rw [htrue]
    constructor
    · exact fun hh => hh.1
    · intro hlt
      exact ⟨hlt, quiescent_next_free s h hq (by omega)⟩

/-- Instance of `do_enqueue_alert_admission`: the empty ring of limit 1 with
the write slot at 0 accepts a priority-0 alert. -/
theorem do_enqueue_alert_admission_witness :
    (0 : Nat) ≤ 1 ∧ 2 * (empty_manager 1 0).m_queue_size_limit ≤ INT_MAX ∧
    counters_consistent (empty_manager 1 0) ∧ quiescent (empty_manager 1 0) ∧
    (∃ s', do_enqueue_alert_int (empty_manager 1 0) 7 0 = some (true, s')) :=
  ⟨by decide, by decide, by decide, by decide,
   ((do_enqueue_alert_admission (empty_manager 1 0) 7 0 (by decide) (by decide) (by decide)
      (by decide)).2.1).2 (by decide)⟩

theorem empty_manager_quiescent (L w : Nat) : quiescent (empty_manager L w) := by
  intro j _
  simp [empty_manager]

/-- C1 as stated fails at the limit `L = 2^30`: the empty ring of that limit
is quiescent, its counters are consistent and `size = 0 < L*(1+1)`, yet a
priority-1 call returns false: `size_limit * (1 + priority)` overflows to
`INT_MIN`, which `real_size = 0` is not below. -/
theorem do_enqueue_alert_limit_overflow :
    1 ≤ overflow_ring.m_queue_size_limit ∧ overflow_ring.m_queue_size_limit ≤ INT_MAX ∧
    counters_consistent overflow_ring ∧ quiescent overflow_ring ∧
    overflow_ring.m_queue_size < overflow_ring.m_queue_size_limit * (1 + 1) ∧
    limit_for_priority_int overflow_ring.m_queue_size_limit ((1 : Nat) : Int)
      = -2147483648 ∧
    do_enqueue_alert_int overflow_ring 7 1 = some (false, overflow_ring) ∧
    ¬ ∃ s', do_enqueue_alert_int overflow_ring 7 1 = some (true, s') := by
  have hr := do_enqueue_alert_int_overflow overflow_ring 7 rfl
  refine ⟨by decide, by decide, by decide, empty_manager_quiescent _ _, by decide,
    limit_for_priority_int_overflow, hr, ?_⟩
  rintro ⟨s', hs'⟩
  rw [hr] at hs'
  simp at hs'

/-! ## The ring holds a FIFO of alerts -/

theorem empty_ring_holds (L : Nat) (s : alert_manager) (h : empty_ring L s) :
    ring_holds L s [] := by
  obtain ⟨hL, h1, hsz, hw, hr, hsl⟩ := h
  have hpos : 0 < 2 * L := by omega
  have hc := mod_cases_lt_two (s.m_queue_write_slot + 1) (2 * L) hpos (by omega)
  have hrlt : s.m_queue_read_slot < 2 * L := by rw [hr]; exact Nat.mod_lt _ hpos
  refine ⟨hL, h1, hw, hrlt, by simpa using hsz, by simp, ?_, ?_⟩
  · simp only [List.length_nil]; omega
  · intro j hj
    simp only [List.getElem?_nil]
    apply hsl
    unfold wrap; split_ifs <;> omega

/-- The `real_size` computed on a ring that holds `q` is the length of `q`. -/
theorem real_size_of_ring_holds (L : Nat) (s : alert_manager) (q : List Alert)
    (h : ring_holds L s q) :
    real_size s.m_queue_size_limit (next_slot s.m_queue_size_limit s.m_queue_write_slot)
      s.m_queue_read_slot s.m_queue_size = q.length := by
  obtain ⟨hL, h1, hw, hr, hsz, hlen, hc, -⟩ := h
  rw [hL, hsz]
  unfold real_size next_slot
  split_ifs <;> omega

/-- On a ring that holds fewer than `2L` alerts, the slot after the write
slot is the first free one. -/
theorem next_slot_of_ring_holds (L : Nat) (s : alert_manager) (q : List Alert)
    (h : ring_holds L s q) (hlt : q.length < 2 * L) :
    next_slot s.m_queue_size_limit s.m_queue_write_slot
      = wrap (2 * L) (s.m_queue_read_slot + q.length) := by
  obtain ⟨hL, h1, hw, hr, hsz, hlen, hc, -⟩ := h
  rw [hL]
  unfold next_slot wrap
  split_ifs <;> omega

/-- Two offsets below the array length fold to the same slot only when
equal. -/
theorem wrap_inj (n r i j : Nat) (_hr : r < n) (hi : i < n) (hj : j < n)
    (h : wrap n (r + i) = wrap n (r + j)) : i = j := by
  unfold wrap at h
  split_ifs at h <;> omega

/-- A rejected enqueue on a ring holding `q`. -/
theorem do_enqueue_alert_full (L : Nat) (s : alert_manager) (q : List Alert)
    (a : Alert) (p : Nat) (h : ring_holds L s q) (hfull : L * (1 + p) ≤ q.length) :
    do_enqueue_alert s a p = some (false, s) := by
  have hrs := real_size_of_ring_holds L s q h
  unfold do_enqueue_alert
  simp only [hrs]
  rw [h.1]
  simp [hfull]

@[simp] theorem publish_limit (s : alert_manager) :
    (publish s).m_queue_size_limit = s.m_queue_size_limit := by
  simp only [publish]; split_ifs <;> rfl

@[simp] theorem publish_write_slot (s : alert_manager) :
    (publish s).m_queue_write_slot = s.m_queue_write_slot := by
  simp only [publish]; split_ifs <;> rfl

@[simp] theorem publish_read_slot (s : alert_manager) :
    (publish s).m_queue_read_slot = s.m_queue_read_slot := by
  simp only [publish]; split_ifs <;> rfl

@[simp] theorem publish_size (s : alert_manager) :
    (publish s).m_queue_size = s.m_queue_size + 1 := by
  simp only [publish]; split_ifs <;> rfl

@[simp] theorem publish_alerts (s : alert_manager) :
    (publish s).m_alerts = s.m_alerts := by
  simp only [publish]; split_ifs <;> rfl

@[simp] theorem publish_notify (s : alert_manager) :
    (publish s).m_notify = s.m_notify := by
  simp only [publish]; split_ifs <;> rfl

theorem publish_notify_calls (s : alert_manager) :
    (publish s).notify_calls
      = s.notify_calls + (if s.m_queue_size = 0 ∧ s.m_notify = true then 1 else 0) := by
  simp only [publish]
  by_cases h0 : s.m_queue_size = 0 <;> by_cases hn : s.m_notify = true <;> simp [h0, hn]

/-- The result of a call that passes the size check and finds its slot
free. -/
theorem do_enqueue_alert_eq_true (s : alert_manager) (a : Alert) (p : Nat)
    (hrs : real_size s.m_queue_size_limit
        (next_slot s.m_queue_size_limit s.m_queue_write_slot)
        s.m_queue_read_slot s.m_queue_size < s.m_queue_size_limit * (1 + p))
    (hfree : s.m_alerts (next_slot s.m_queue_size_limit s.m_queue_write_slot) = none) :
    do_enqueue_alert s a p = some (true, publish { s with
      m_queue_write_slot := next_slot s.m_queue_size_limit s.m_queue_write_slot
      m_alerts := Function.update s.m_alerts
        (next_slot s.m_queue_size_limit s.m_queue_write_slot) (some a) }) := by
  unfold do_enqueue_alert
  have hnot : ¬ (real_size s.m_queue_size_limit
        (next_slot s.m_queue_size_limit s.m_queue_write_slot)
        s.m_queue_read_slot s.m_queue_size ≥ s.m_queue_size_limit * (1 + p)) := by omega
  simp only [hnot, if_false, hfree]

/-- An accepted enqueue on a ring holding `q`: the call returns true, the ring
then holds `q ++ [a]`, and only the ring counters, the slot and the callback
counters change. -/
theorem do_enqueue_alert_room (L : Nat) (s : alert_manager) (q : List Alert)
    (a : Alert) (p : Nat) (h : ring_holds L s q) (hp : p ≤ 1)
    (hroom : q.length < L * (1 + p)) :
    ∃ s', do_enqueue_alert s a p = some (true, s') ∧ ring_holds L s' (q ++ [a]) ∧
      s'.m_notify = s.m_notify ∧
      s'.notify_calls
        = s.notify_calls + (if q.length = 0 ∧ s.m_notify = true then 1 else 0) := by
  have hrs := real_size_of_ring_holds L s q h
  have hlt : q.length < 2 * L := by
    have : L * (1 + p) ≤ L * 2 := Nat.mul_le_mul_left L (by omega)
    omega
  have hnx := next_slot_of_ring_holds L s q h hlt
  obtain ⟨hL, h1, hw, hr, hsz, hlen, hc, hsl⟩ := h
  have hfree : s.m_alerts (wrap (2 * L) (s.m_queue_read_slot + q.length)) = none := by
    rw [hsl _ hlt]; simp
  have heq := do_enqueue_alert_eq_true s a p (by rw [hrs, hL]; exact hroom)
    (by rw [hnx]; exact hfree)
  rw [hnx] at heq
  refine ⟨_, heq, ?_, ?_, ?_⟩
  · have hwl : wrap (2 * L) (s.m_queue_read_slot + q.length) < 2 * L := by
      unfold wrap; split_ifs <;> omega
    have hcount : (s.m_queue_read_slot + (q.length + 1)
          = wrap (2 * L) (s.m_queue_read_slot + q.length) + 1 ∨
        s.m_queue_read_slot + (q.length + 1)
          = wrap (2 * L) (s.m_queue_read_slot + q.length) + 1 + 2 * L ∨
        s.m_queue_read_slot + (q.length + 1) + 2 * L
          = wrap (2 * L) (s.m_queue_read_slot + q.length) + 1) := by
      unfold wrap; split_ifs <;> omega
    have hslots : ∀ j, j < 2 * L →
        Function.update s.m_alerts (wrap (2 * L) (s.m_queue_read_slot + q.length)) (some a)
          (wrap (2 * L) (s.m_queue_read_slot + j)) = (q ++ [a])[j]? := by
      intro j hj
      by_cases hjq : j = q.length
      · subst hjq
        simp
      · have hne : wrap (2 * L) (s.m_queue_read_slot + j)
            ≠ wrap (2 * L) (s.m_queue_read_slot + q.length) := by
          intro he
          exact hjq (wrap_inj (2 * L) _ _ _ hr hj hlt he)
        rw [Function.update_noteq hne, hsl j hj]
        rcases Nat.lt_or_ge j q.length with hjl | hjl
        · rw [List.getElem?_append_left hjl]
        · have h2 : q.length + 1 ≤ j := by omega
          rw [List.getElem?_eq_none (by simpa using hjl),
            List.getElem?_eq_none (by simpa using h2)]
    refine ⟨by simpa using hL, h1, by simpa using hwl, by simpa using hr,
      by simp [hsz], by simp; omega, by simpa using hcount, ?_⟩
    simpa using hslots
  · simp
  · rw [publish_notify_calls]
    simp [hsz]

/-! ## Drain on a ring that holds a FIFO -/

theorem succ_mod_eq_wrap (n r : Nat) (hr : r < n) : (r + 1) % n = wrap n (r + 1) := by
  unfold wrap
  split_ifs with h
  · have : r + 1 = n := by omega
    rw [this]; simp
  · exact Nat.mod_eq_of_lt (by omega)

/-- The drain loop only changes the slots and the read slot. -/
theorem drain_loop_frame (n : Nat) : ∀ (s : alert_manager) (acc : List (Option Alert)),
    (drain_loop n s acc).1 = { s with
      m_alerts := (drain_loop n s acc).1.m_alerts
      m_queue_read_slot := (drain_loop n s acc).1.m_queue_read_slot } := by
  induction n with
  | zero => intro s acc; rfl
  | succ n ih =>
    intro s acc
    simp only [drain_loop]
    rw [ih]

theorem drain_loop_spec (L : Nat) (n : Nat) :
    ∀ (s : alert_manager) (q : List Alert) (acc : List (Option Alert)),
    slots_hold L s q → n ≤ q.length →
    (drain_loop n s acc).2 = acc ++ (q.take n).map some ∧
    slots_hold L (drain_loop n s acc).1 (q.drop n) ∧
    (drain_loop n s acc).1.m_queue_read_slot = wrap (2 * L) (s.m_queue_read_slot + n) := by
  induction n with
  | zero =>
    intro s q acc h _
    refine ⟨by simp [drain_loop], by simpa [drain_loop] using h, ?_⟩
    obtain ⟨-, -, hr, -, -⟩ := h
    simp only [drain_loop, Nat.add_zero]
    unfold wrap; split_ifs <;> omega
  | succ n ih =>
    intro s q acc h hn
    obtain ⟨hL, h1, hr, hlen, hsl⟩ := h
    cases q with
    | nil => simp at hn
    | cons x q' =>
      simp only [List.length_cons] at hn hlen
      have hx : s.m_alerts s.m_queue_read_slot = some x := by
        have := hsl 0 (by omega)
        simpa [wrap, Nat.not_le.mpr hr] using this
      have hr1 : (s.m_queue_read_slot + 1) % (2 * s.m_queue_size_limit)
          = wrap (2 * L) (s.m_queue_read_slot + 1) := by
        rw [hL]; exact succ_mod_eq_wrap _ _ hr
      have hr1lt : wrap (2 * L) (s.m_queue_read_slot + 1) < 2 * L := by
        unfold wrap; split_ifs <;> omega
      have hs1 : slots_hold L { s with
          m_alerts := Function.update s.m_alerts s.m_queue_read_slot none
          m_queue_read_slot := (s.m_queue_read_slot + 1) % (2 * s.m_queue_size_limit) } q' := by
        refine ⟨hL, h1, by simpa [hr1] using hr1lt, by omega, ?_⟩
        intro j hj
        show Function.update s.m_alerts s.m_queue_read_slot none
          (wrap (2 * L) ((s.m_queue_read_slot + 1) % (2 * s.m_queue_size_limit) + j)) = q'[j]?
        rw [hr1]
        by_cases hlast : j + 1 = 2 * L
        · have hwr : wrap (2 * L) (wrap (2 * L) (s.m_queue_read_slot + 1) + j)
              = s.m_queue_read_slot := by
            unfold wrap; split_ifs <;> omega
          rw [hwr, Function.update_same]
          symm
          exact List.getElem?_eq_none (by omega)
        · have hwr : wrap (2 * L) (wrap (2 * L) (s.m_queue_read_slot + 1) + j)
              = wrap (2 * L) (s.m_queue_read_slot + (j + 1)) := by
            unfold wrap; split_ifs <;> omega
          have hne : wrap (2 * L) (s.m_queue_read_slot + (j + 1)) ≠ s.m_queue_read_slot := by
            unfold wrap; split_ifs <;> omega
          rw [hwr, Function.update_noteq hne, hsl (j + 1) (by omega)]
          simp
      obtain ⟨ih1, ih2, ih3⟩ := ih _ q' (acc ++ [s.m_alerts s.m_queue_read_slot]) hs1 (by omega)
      simp only [drain_loop]
      refine ⟨?_, ?_, ?_⟩
      · rw [ih1, hx]; simp
      · simpa using ih2
      · rw [ih3]
        simp only [hr1]
        unfold wrap; split_ifs <;> omega

/-- A drain of a ring holding `q` returns the alerts of `q` in order, none of
them `NULL`, and leaves an empty ring; only the slots, the read slot and the
size change. -/
theorem drain_holds (L : Nat) (s : alert_manager) (q : List Alert)
    (h : ring_holds L s q) :
    (drain s).2 = q.map some ∧ ring_holds L (drain s).1 [] ∧
    (drain s).1.m_notify = s.m_notify ∧ (drain s).1.notify_calls = s.notify_calls := by
  obtain ⟨hL, h1, hw, hr, hsz, hlen, hc, hsl⟩ := h
  have hsh : slots_hold L s q := ⟨hL, h1, hr, hlen, hsl⟩
  obtain ⟨hb, hs', hr'⟩ := drain_loop_spec L q.length s q [] hsh (Nat.le_refl _)
  have hfr := drain_loop_frame q.length s []
  simp only [List.take_length, List.nil_append, List.drop_length] at hb hs'
  obtain ⟨hL', -, hr'lt, -, hsl'⟩ := hs'
  unfold drain
  simp only [hsz]
  refine ⟨hb, ?_, ?_, ?_⟩
  · refine ⟨hL', h1, ?_, hr'lt, ?_, by simp, ?_, hsl'⟩
    · show (drain_loop q.length s []).1.m_queue_write_slot < 2 * L
      rw [hfr]; exact hw
    · show (drain_loop q.length s []).1.m_queue_size - (drain_loop q.length s []).2.length
        = ([] : List Alert).length
      rw [hb]; simp
      rw [hfr]; simp [hsz]
    · show (drain_loop q.length s []).1.m_queue_read_slot + ([] : List Alert).length
          = (drain_loop q.length s []).1.m_queue_write_slot + 1 ∨ _
      have hwf : (drain_loop q.length s []).1.m_queue_write_slot = s.m_queue_write_slot := by
        rw [hfr]
      rw [hwf, hr']
      simp only [List.length_nil, Nat.add_zero]
      unfold wrap; split_ifs <;> omega
  · show (drain_loop q.length s []).1.m_notify = s.m_notify
    rw [hfr]
  · show (drain_loop q.length s []).1.notify_calls = s.notify_calls
    rw [hfr]

/-! ## Sequences of calls -/

theorem run_ops_append (xs ys : List op) : ∀ (s : alert_manager),
    run_ops (xs ++ ys) s =
      match run_ops xs s with
      | none => none
      | some (s1, o1) =>
        match run_ops ys s1 with
        | none => none
        | some (s2, o2) => some (s2, o1 ++ o2) := by
  induction xs with
  | nil =>
    intro s
    simp only [List.nil_append, run_ops]
    cases run_ops ys s with
    | none => rfl
    | some r => rfl
  | cons x xs ih =>
    intro s
    show run_ops (x :: (xs ++ ys)) s = _
    simp only [run_ops]
    cases exec x s with
    | none => rfl
    | some r =>
      obtain ⟨s1, o⟩ := r
      simp only
      rw [ih s1]
      cases run_ops xs s1 with
      | none => rfl
      | some r1 =>
        obtain ⟨s2, o1⟩ := r1
        simp only
        cases run_ops ys s2 with
        | none => rfl
        | some r2 => rfl

/-- Posts of one priority that all find room are all accepted. -/
theorem run_posts_room (L : Nat) (p : Fin 2) (es : List Alert) :
    ∀ (s : alert_manager) (q : List Alert), ring_holds L s q →
      q.length + es.length ≤ L * (1 + p.val) →
      ∃ s', run_ops (es.map (fun a => op.post a p)) s
          = some (s', es.map (fun a => outcome.posted a true)) ∧
        ring_holds L s' (q ++ es) := by
  induction es with
  | nil =>
    intro s q h _
    exact ⟨s, rfl, by simpa using h⟩
  | cons e es ih =>
    intro s q h hlen
    simp only [List.length_cons] at hlen
    obtain ⟨s1, he, hs1, -, -⟩ :=
      do_enqueue_alert_room L s q e p.val h (by omega) (by omega)
    obtain ⟨s2, hr, hs2⟩ := ih s1 (q ++ [e]) hs1 (by simp; omega)
    refine ⟨s2, ?_, by simpa using hs2⟩
    simp only [List.map_cons, run_ops, exec, he, hr]

/-- Posts of one priority on a ring that is full for that priority are all
rejected and leave the state as it is. -/
theorem run_posts_full (L : Nat) (p : Fin 2) (es : List Alert)
    (s : alert_manager) (q : List Alert) (h : ring_holds L s q)
    (hfull : L * (1 + p.val) ≤ q.length) :
    run_ops (es.map (fun a => op.post a p)) s
      = some (s, es.map (fun a => outcome.posted a false)) := by
  induction es with
  | nil => rfl
  | cons e es ih =>
    have he := do_enqueue_alert_full L s q e p.val h hfull
    simp only [List.map_cons, run_ops, exec, he, ih]

/-- In exact arithmetic: from an empty ring of limit `L`, `L` priority-0
posts are accepted, further priority-0 posts are rejected, `L` priority-1
posts are accepted and one more is rejected; the ring then holds `2L`
alerts. -/
theorem run_posts_reserve (L : Nat) (s : alert_manager) (e0 e1 e2 : List Alert) (x : Alert)
    (h : empty_ring L s) (h0 : e0.length = L) (h2 : e2.length = L) :
    ∃ s', run_ops (e0.map (fun a => op.post a 0) ++ (e1.map (fun a => op.post a 0) ++
              (e2.map (fun a => op.post a 1) ++ [op.post x 1]))) s
          = some (s', e0.map (fun a => outcome.posted a true) ++
              (e1.map (fun a => outcome.posted a false) ++
              (e2.map (fun a => outcome.posted a true) ++ [outcome.posted x false]))) ∧
        s'.m_queue_size = 2 * L ∧ ring_holds L s' (e0 ++ e2) := by
  have hq := empty_ring_holds L s h
  obtain ⟨s1, hr1, hs1⟩ := run_posts_room L 0 e0 s [] hq (by simp [h0])
  simp only [List.nil_append] at hs1
  have hr2 := run_posts_full L 0 e1 s1 e0 hs1 (by simp [h0])
  obtain ⟨s3, hr3, hs3⟩ := run_posts_room L 1 e2 s1 e0 hs1 (by simp [h0, h2]; omega)
  have hr4 : run_ops [op.post x 1] s3 = some (s3, [outcome.posted x false]) := by
    have := run_posts_full L 1 [x] s3 (e0 ++ e2) hs3 (by simp [h0, h2]; omega)
    simpa using this
  refine ⟨s3, ?_, ?_, hs3⟩
  · rw [run_ops_append, hr1]
    simp only
    rw [run_ops_append, hr2]
    simp only
    rw [run_ops_append, hr3]
    simp only
    rw [hr4]
  · rw [hs3.2.2.2.2.1]
    simp [h0, h2]; omega

/-- A call of a sequential run on a ring that holds a FIFO leaves a ring that
holds a FIFO. -/
theorem exec_ring_holds (L : Nat) (o : op) (s s1 : alert_manager) (q : List Alert)
    (out : outcome) (h : ring_holds L s q) (he : exec o s = some (s1, out)) :
    ∃ q1, ring_holds L s1 q1 := by
  cases o with
  | post a p =>
    have hp : p.val ≤ 1 := by omega
    simp only [exec] at he
    by_cases hroom : q.length < L * (1 + p.val)
    · obtain ⟨s2, h1e, hs2, -, -⟩ := do_enqueue_alert_room L s q a p.val h hp hroom
      rw [h1e] at he
      simp only [Option.some.injEq, Prod.mk.injEq] at he
      obtain ⟨rfl, -⟩ := he
      exact ⟨_, hs2⟩
    · have hf := do_enqueue_alert_full L s q a p.val h (by omega)
      rw [hf] at he
      simp only [Option.some.injEq, Prod.mk.injEq] at he
      obtain ⟨rfl, -⟩ := he
      exact ⟨_, h⟩
  | drain =>
    simp only [exec, Option.some.injEq, Prod.mk.injEq] at he
    obtain ⟨rfl, -⟩ := he
    exact ⟨_, (drain_holds L s q h).2.1⟩

theorem exec_int_post (a : Alert) (p : Fin 2) (s : alert_manager) :
    exec_int (op.post a p) s
      = match do_enqueue_alert_int s a p.val with
        | none => none
        | some (ok, s1) => some (s1, outcome.posted a ok) := rfl

theorem run_ops_int_cons (o : op) (os : List op) (s : alert_manager) :
    run_ops_int (o :: os) s
      = match exec_int o s with
        | none => none
        | some (s1, out) =>
          match run_ops_int os s1 with
          | none => none
          | some (s2, outs) => some (s2, out :: outs) := rfl

theorem exec_int_eq (L : Nat) (hb : 2 * L ≤ INT_MAX) (o : op) (s : alert_manager)
    (q : List Alert) (h : ring_holds L s q) : exec_int o s = exec o s := by
  cases o with
  | post a p =>
    have hp : p.val ≤ 1 := by omega
    have he : do_enqueue_alert_int s a p.val = do_enqueue_alert s a p.val :=
      do_enqueue_alert_int_eq s a p.val (by rw [h.1]; exact hb)
        (by rw [h.1]; exact h.2.2.1) (by rw [h.1]; exact h.2.2.2.1) hp
    rw [exec_int_post, he]
    rfl
  | drain => rfl

/-- On a ring that holds a FIFO and whose doubled limit fits in an `int`, a
sequential run with the enqueues in `int` arithmetic is the run in exact
arithmetic. -/
theorem run_ops_int_eq (L : Nat) (hb : 2 * L ≤ INT_MAX) (ops : List op) :
    ∀ (s : alert_manager) (q : List Alert), ring_holds L s q →
      run_ops_int ops s = run_ops ops s := by
  induction ops with
  | nil => intro s q _; rfl
  | cons o os ih =>
    intro s q h
    rw [run_ops_int_cons, exec_int_eq L hb o s q h]
    simp only [run_ops]
    cases he : exec o s with
    | none => rfl
    | some r =>
      obtain ⟨s1, out⟩ := r
      obtain ⟨q1, hq1⟩ := exec_ring_holds L o s s1 q out h he
      simp only
      rw [ih s1 q1 hq1]

theorem empty_manager_empty_ring (L w : Nat) (h1 : 1 ≤ L) (hw : w < 2 * L) :
    empty_ring L (empty_manager L w) :=
  ⟨rfl, h1, rfl, hw, rfl, fun _ _ => rfl⟩

theorem do_enqueue_alert_int_limit (s s' : alert_manager) (a : Alert) (p : Nat) (b : Bool)
    (h : do_enqueue_alert_int s a p = some (b, s')) :
    s'.m_queue_size_limit = s.m_queue_size_limit := by
  unfold do_enqueue_alert_int at h
  simp only at h
  split_ifs at h with hge
  · simp only [Option.some.injEq, Prod.mk.injEq] at h
    obtain ⟨-, rfl⟩ := h
    rfl
  · cases hsl : s.m_alerts
        (next_slot_int s.m_queue_size_limit s.m_queue_write_slot).toNat with
    | some v => simp [hsl] at h
    | none =>
      simp only [hsl, Option.some.injEq, Prod.mk.injEq] at h
      obtain ⟨-, rfl⟩ := h
      simp

theorem exec_int_limit (o : op) (s s1 : alert_manager) (out : outcome)
    (h : exec_int o s = some (s1, out)) : s1.m_queue_size_limit = s.m_queue_size_limit := by
  cases o with
  | post a p =>
    rw [exec_int_post] at h
    cases he : do_enqueue_alert_int s a p.val with
    | none =>
      rw [he] at h
      simp at h
    | some r =>
      obtain ⟨b, s2⟩ := r
      rw [he] at h
      simp only [Option.some.injEq, Prod.mk.injEq] at h
      obtain ⟨rfl, -⟩ := h
      exact do_enqueue_alert_int_limit s s2 a p.val b he
  | drain =>
    have h1 : (drain s).1 = s1 := by
      have h2 : some ((drain s).1, outcome.drained (drain s).2) = some (s1, out) := h
      simp only [Option.some.injEq, Prod.mk.injEq] at h2
      exact h2.1
    rw [← h1]
    show (drain_loop s.m_queue_size s []).1.m_queue_size_limit = s.m_queue_size_limit
    rw [drain_loop_frame]

/-- At the limit `2^30` every priority-1 post of a sequential run is answered
with false, whatever the calls before it. -/
theorem run_ops_int_overflow (ops : List op) :
    ∀ (s s' : alert_manager) (outs : List outcome),
      s.m_queue_size_limit = 1073741824 → run_ops_int ops s = some (s', outs) →
      ∀ x ∈ ops.zip outs, ∀ a, x.1 = op.post a 1 → x.2 = outcome.posted a false := by
  induction ops with
  | nil =>
    intro s s' outs _ _ x hx
    simp at hx
  | cons o os ih =>
    intro s s' outs hL hrun x hx a hxa
    rw [run_ops_int_cons] at hrun
    cases he : exec_int o s with
    | none =>
      rw [he] at hrun
      simp at hrun
    | some r =>
      obtain ⟨s1, out⟩ := r
      rw [he] at hrun
      cases hr : run_ops_int os s1 with
      | none =>
        simp only [hr] at hrun
        simp at hrun
      | some r2 =>
        obtain ⟨s2, outs2⟩ := r2
        simp only [hr, Option.some.injEq, Prod.mk.injEq] at hrun
        obtain ⟨-, rfl⟩ := hrun
        simp only [List.zip_cons_cons, List.mem_cons] at hx
        rcases hx with rfl | hx
        · have hxa1 : o = op.post a 1 := hxa
          subst hxa1
          rw [exec_int_post, show ((1 : Fin 2).val) = 1 from rfl,
            do_enqueue_alert_int_overflow s a hL] at he
          simp only [Option.some.injEq, Prod.mk.injEq] at he
          exact he.2.symm
        · exact ih s1 s2 outs2 (by rw [exec_int_limit o s s1 out he]; exact hL) hr x hx a hxa

/-- C2, as amended: priority reserve. For every limit `L >= 1` with
`2L <= INT_MAX`, from an empty ring of limit `L` and with no drain, `L`
priority-0 posts are all accepted, every further priority-0 post is
rejected, the next `L` priority-1 posts are all accepted (the ring then holds
`2L` alerts) and one more priority-1 post is rejected. Scenario S1: with
`L = 2` the posts p0, p0, p0, p1 give true, true, false, true and size 3. -/
theorem priority_reserve (L : Nat) (s : alert_manager) (e0 e1 e2 : List Alert) (x : Alert)
    (hb : 2 * L ≤ INT_MAX) (h : empty_ring L s) (h0 : e0.length = L) (h2 : e2.length = L) :
    (∃ s', run_ops_int (e0.map (fun a => op.post a 0) ++ (e1.map (fun a => op.post a 0) ++
              (e2.map (fun a => op.post a 1) ++ [op.post x 1]))) s
          = some (s', e0.map (fun a => outcome.posted a true) ++
              (e1.map (fun a => outcome.posted a false) ++
              (e2.map (fun a => outcome.posted a true) ++ [outcome.posted x false]))) ∧
        s'.m_queue_size = 2 * L ∧ ring_holds L s' (e0 ++ e2)) ∧
    (run_ops_int [op.post 1 0, op.post 2 0, op.post 3 0, op.post 4 1]
        (empty_manager 2 0)).map (fun r => (r.2, r.1.m_queue_size))
      = some ([outcome.posted 1 true, outcome.posted 2 true, outcome.posted 3 false,
          outcome.posted 4 true], 3) := by
  refine ⟨?_, ?_⟩
  · rw [run_ops_int_eq L hb _ s [] (empty_ring_holds L s h)]
    exact run_posts_reserve L s e0 e1 e2 x h h0 h2
  · rw [run_ops_int_eq 2 (by decide) _ _ [] (empty_ring_holds 2 _ (by decide))]
    decide

/-- Instance of `priority_reserve`: limit 1, one post in each phase. -/
theorem priority_reserve_witness :
    2 * 1 ≤ INT_MAX ∧ empty_ring 1 (empty_manager 1 0) ∧
    ∃ s', run_ops_int [op.post 5 0, op.post 6 0, op.post 7 1, op.post 8 1] (empty_manager 1 0)
        = some (s', [outcome.posted 5 true, outcome.posted 6 false, outcome.posted 7 true,
            outcome.posted 8 false]) ∧ s'.m_queue_size = 2 := by
  refine ⟨by decide, by decide, ?_⟩
  obtain ⟨s', hrun, hsize, -⟩ :=
    (priority_reserve 1 (empty_manager 1 0) [5] [6] [7] 8 (by decide) (by decide) rfl rfl).1
  exact ⟨s', hrun, hsize⟩

/-- C2 as stated fails at the limit `L = 2^30`, an `int` whose double is
`INT_MAX + 1`: on the empty ring of that limit a priority-1 post is rejected,
and no run from it has the outcomes the claim gives, since the first of the
`L` priority-1 posts that should be accepted is answered with false
(`size_limit * (1 + priority)` overflows to `INT_MIN`). -/
theorem priority_reserve_overflow :
    empty_ring 1073741824 overflow_ring ∧ 1073741824 ≤ INT_MAX ∧
    2 * 1073741824 = INT_MAX + 1 ∧
    run_ops_int [op.post 7 1] overflow_ring = some (overflow_ring, [outcome.posted 7 false]) ∧
    ¬ ∃ (e0 e1 e2 : List Alert) (x : Alert) (s' : alert_manager),
        e0.length = 1073741824 ∧ e2.length = 1073741824 ∧
        run_ops_int (e0.map (fun a => op.post a 0) ++ (e1.map (fun a => op.post a 0) ++
              (e2.map (fun a => op.post a 1) ++ [op.post x 1]))) overflow_ring
          = some (s', e0.map (fun a => outcome.posted a true) ++
              (e1.map (fun a => outcome.posted a false) ++
              (e2.map (fun a => outcome.posted a true) ++ [outcome.posted x false]))) := by
  refine ⟨empty_manager_empty_ring _ _ (by decide) (by decide), by decide, by decide, ?_, ?_⟩
  · rw [run_ops_int_cons, exec_int_post, show ((1 : Fin 2).val) = 1 from rfl,
      do_enqueue_alert_int_overflow overflow_ring 7 rfl]
    rfl
  · rintro ⟨e0, e1, e2, x, s', -, h2, hrun⟩
    cases e2 with
    | nil => simp at h2
    | cons a rest =>
      have hz := run_ops_int_overflow _ overflow_ring s' _ rfl hrun
        (op.post a 1, outcome.posted a true)
        (by
          rw [List.zip_append (by simp), List.zip_append (by simp)]
          simp)
        a rfl
      simp at hz

/-! ## Bounded admission under interleaving -/

theorem sum_map_set {α : Type} (f : α → Nat) : ∀ (l : List α) (i : Nat) (t b : α),
    l[i]? = some t → ((l.set i b).map f).sum + f t = (l.map f).sum + f b := by
  intro l
  induction l with
  | nil => intro i t b h; simp at h
  | cons x xs ih =>
    intro i t b h
    cases i with
    | zero =>
      simp only [List.getElem?_cons_zero, Option.some.injEq] at h
      subst h
      simp only [List.set_cons_zero, List.map_cons, List.sum_cons]
      omega
    | succ i =>
      simp only [List.getElem?_cons_succ] at h
      have := ih i t b h
      simp only [List.set_cons_succ, List.map_cons, List.sum_cons]
      omega

theorem sum_map_le_sum_map {α : Type} (f g : α → Nat) (hfg : ∀ a, f a ≤ g a) :
    ∀ l : List α, (l.map f).sum ≤ (l.map g).sum := by
  intro l
  induction l with
  | nil => simp
  | cons x xs ih =>
    simp only [List.map_cons, List.sum_cons]
    have := hfg x
    omega

/-- A returning call invokes `m_notify` once when it accepts the alert, the
size was 0 and a function is installed, and not at all otherwise. -/
theorem do_enqueue_alert_notify (s s' : alert_manager) (a : Alert) (p : Nat) (b : Bool)
    (h : do_enqueue_alert s a p = some (b, s')) :
    s'.notify_calls = s.notify_calls +
      (if b = true ∧ s.m_queue_size = 0 ∧ s.m_notify = true then 1 else 0) ∧
    s'.m_notify = s.m_notify ∧
    s'.m_queue_size = s.m_queue_size + (if b = true then 1 else 0) := by
  unfold do_enqueue_alert at h
  simp only at h
  split_ifs at h with hge
  · simp only [Option.some.injEq, Prod.mk.injEq] at h
    obtain ⟨rfl, rfl⟩ := h
    simp
  · cases hsl : s.m_alerts (next_slot s.m_queue_size_limit s.m_queue_write_slot) with
    | some v => simp [hsl] at h
    | none =>
      simp only [hsl, Option.some.injEq, Prod.mk.injEq] at h
      obtain ⟨rfl, rfl⟩ := h
      refine ⟨?_, by simp, by simp⟩
      rw [publish_notify_calls]
      simp

theorem run_ops_notify (L : Nat) (ops : List op) :
    ∀ (s : alert_manager) (q : List Alert), ring_holds L s q → s.m_notify = true →
      ∃ s' outs, run_ops ops s = some (s', outs) ∧
        s'.notify_calls = s.notify_calls + empty_to_nonempty ops s := by
  induction ops with
  | nil =>
    intro s q _ _
    exact ⟨s, [], rfl, rfl⟩
  | cons o os ih =>
    intro s q h hn
    have hsz : s.m_queue_size = q.length := h.2.2.2.2.1
    cases o with
    | post a p =>
      rcases Nat.lt_or_ge q.length (L * (1 + p.val)) with hroom | hfull
      · obtain ⟨s1, he, hs1, hn1, hc1⟩ :=
          do_enqueue_alert_room L s q a p.val h (by omega) hroom
        have hsz1 : s1.m_queue_size = q.length + 1 := by
          rw [hs1.2.2.2.2.1]; simp
        obtain ⟨s', outs, hr, hc⟩ := ih s1 (q ++ [a]) hs1 (by rw [hn1, hn])
        refine ⟨s', outcome.posted a true :: outs, ?_, ?_⟩
        · simp only [run_ops, exec, he, hr]
        · simp only [empty_to_nonempty, exec, he]
          rw [hc, hc1, hsz, hsz1]
          by_cases h0 : q.length = 0
          · simp [h0, hn]; omega
          · simp [h0, hn]
      · have he := do_enqueue_alert_full L s q a p.val h hfull
        obtain ⟨s', outs, hr, hc⟩ := ih s q h hn
        refine ⟨s', outcome.posted a false :: outs, ?_, ?_⟩
        · simp only [run_ops, exec, he, hr]
        · simp only [empty_to_nonempty, exec, he]
          rw [hc]
          have : ¬ (s.m_queue_size = 0 ∧ s.m_queue_size ≠ 0) := by omega
          simp [this]
    | drain =>
      obtain ⟨-, hs1, hn1, hc1⟩ := drain_holds L s q h
      have hsz1 : (drain s).1.m_queue_size = 0 := by
        rw [hs1.2.2.2.2.1]; simp
      obtain ⟨s', outs, hr, hc⟩ := ih (drain s).1 [] hs1 (by rw [hn1, hn])
      refine ⟨s', outcome.drained (drain s).2 :: outs, ?_, ?_⟩
      · simp only [run_ops, exec, hr]
      · simp only [empty_to_nonempty, exec]
        rw [hc, hc1, hsz1]
        simp

theorem drain_loop_length (n : Nat) : ∀ (s : alert_manager) (acc : List (Option Alert)),
    (drain_loop n s acc).2.length = acc.length + n := by
  induction n with
  | zero => intro s acc; rfl
  | succ n ih =>
    intro s acc
    simp only [drain_loop]
    rw [ih]
    simp only [List.length_append, List.length_singleton]
    omega

/-- A drain leaves size 0 and the callback fields as they are, in any
state. -/
theorem drain_frame (s : alert_manager) :
    (drain s).1.m_queue_size = 0 ∧ (drain s).1.m_notify = s.m_notify ∧
    (drain s).1.notify_calls = s.notify_calls := by
  have hfr := drain_loop_frame s.m_queue_size s []
  have hlen := drain_loop_length s.m_queue_size s []
  refine ⟨?_, ?_, ?_⟩
  · show (drain_loop s.m_queue_size s []).1.m_queue_size
        - (drain_loop s.m_queue_size s []).2.length = 0
    rw [hlen, hfr]
    simp
  · show (drain_loop s.m_queue_size s []).1.m_notify = s.m_notify
    rw [hfr]
  · show (drain_loop s.m_queue_size s []).1.notify_calls = s.notify_calls
    rw [hfr]

/-- In any state, a run that returns has invoked `m_notify` once per
empty-to-non-empty transition. -/
theorem run_ops_notify_of_returns (ops : List op) :
    ∀ (s s' : alert_manager) (outs : List outcome), s.m_notify = true →
      run_ops ops s = some (s', outs) →
      s'.notify_calls = s.notify_calls + empty_to_nonempty ops s := by
  induction ops with
  | nil =>
    intro s s' outs _ h
    simp only [run_ops, Option.some.injEq, Prod.mk.injEq] at h
    obtain ⟨rfl, -⟩ := h
    rfl
  | cons o os ih =>
    intro s s' outs hn h
    simp only [run_ops] at h
    cases he : exec o s with
    | none => simp [he] at h
    | some r =>
      obtain ⟨s1, out⟩ := r
      simp only [he] at h
      cases hr : run_ops os s1 with
      | none => simp [hr] at h
      | some r2 =>
        obtain ⟨s2, outs2⟩ := r2
        simp only [hr, Option.some.injEq, Prod.mk.injEq] at h
        obtain ⟨rfl, -⟩ := h
        simp only [empty_to_nonempty, he]
        cases o with
        | post a p =>
          simp only [exec] at he
          cases hd : do_enqueue_alert s a p.val with
          | none => simp [hd] at he
          | some r3 =>
            obtain ⟨ok, s3⟩ := r3
            simp only [hd, Option.some.injEq, Prod.mk.injEq] at he
            obtain ⟨rfl, -⟩ := he
            obtain ⟨hc, hn3, hsz⟩ := do_enqueue_alert_notify s s3 a p.val ok hd
            rw [ih s3 s2 outs2 (by rw [hn3, hn]) hr, hc, hsz]
            cases ok <;> by_cases h0 : s.m_queue_size = 0 <;> (simp [h0, hn]; try omega)
        | drain =>
          simp only [exec, Option.some.injEq, Prod.mk.injEq] at he
          obtain ⟨rfl, -⟩ := he
          obtain ⟨hz, hn1, hc1⟩ := drain_frame s
          rw [ih (drain s).1 s2 outs2 (by rw [hn1, hn]) hr, hc1, hz]
          simp

/-- C6: 0->1 notify. With a notify function installed, a call of
`do_enqueue_alert` that returns invokes it exactly once when it accepts an
alert while `m_queue_size` is 0 and not at all when it accepts one while the
size is positive or rejects. Hence in every sequential run of enqueues and
drains from a ring that holds a FIFO the run returns and the number of
invocations is the number of empty-to-non-empty transitions; the same count
holds from any state whatever for a run that returns. Scenario S3:
drain, post (one invocation so far), two more posts (still one), drain, post
(two). -/
theorem notify_once_per_transition (L : Nat) (s : alert_manager) (q : List Alert)
    (ops : List op) (h : ring_holds L s q) (hn : s.m_notify = true) :
    (∀ (a : Alert) (p : Fin 2) (b : Bool) (s1 : alert_manager),
      do_enqueue_alert s a p.val = some (b, s1) →
        s1.notify_calls = s.notify_calls +
          (if b = true ∧ s.m_queue_size = 0 then 1 else 0)) ∧
    (∃ s' outs, run_ops ops s = some (s', outs) ∧
      s'.notify_calls = s.notify_calls + empty_to_nonempty ops s) ∧
    (∀ (t t' : alert_manager) (outs : List outcome), t.m_notify = true →
      run_ops ops t = some (t', outs) →
      t'.notify_calls = t.notify_calls + empty_to_nonempty ops t) ∧
    ((run_ops [op.drain, op.post 1 0] (notifying_manager 2 0)).map
        (fun r => r.1.notify_calls) = some 1 ∧
     (run_ops [op.drain, op.post 1 0, op.post 2 0, op.post 3 1]
        (notifying_manager 2 0)).map (fun r => r.1.notify_calls) = some 1 ∧
     (run_ops [op.drain, op.post 1 0, op.post 2 0, op.post 3 1, op.drain, op.post 4 0]
        (notifying_manager 2 0)).map (fun r => r.1.notify_calls) = some 2) := by
  refine ⟨?_, ?_, run_ops_notify_of_returns ops, by decide, by decide, by decide⟩
  · intro a p b s1 hd
    have := (do_enqueue_alert_notify s s1 a p.val b hd).1
    rw [this]
    simp [hn]
  · exact run_ops_notify L ops s q h hn

/-- Instance of `notify_once_per_transition`: scenario S3 on a ring of
limit 2 with a notify function installed. -/
theorem notify_once_per_transition_witness :
    ring_holds 2 (notifying_manager 2 0) [] ∧ (notifying_manager 2 0).m_notify = true ∧
    ∃ s' outs,
      run_ops [op.drain, op.post 1 0, op.post 2 0, op.post 3 1, op.drain, op.post 4 0]
        (notifying_manager 2 0) = some (s', outs) ∧
      s'.notify_calls = (notifying_manager 2 0).notify_calls +
        empty_to_nonempty
          [op.drain, op.post 1 0, op.post 2 0, op.post 3 1, op.drain, op.post 4 0]
          (notifying_manager 2 0) :=
  ⟨empty_ring_holds 2 _ (by decide), rfl,
   (notify_once_per_transition 2 (notifying_manager 2 0) []
      [op.drain, op.post 1 0, op.post 2 0, op.post 3 1, op.drain, op.post 4 0]
      (empty_ring_holds 2 _ (by decide)) rfl).2.1⟩

/-! ## `emplace_alert` without a dispatch function -/

theorem notify_extensions_eq (alert : Alert) (ps : List plugin) :
    ∀ s : alert_manager, hooks_std ps alert → notify_extensions alert ps s =
      ({ s with on_alert_log := s.on_alert_log ++ ps.map (fun p => (p.id, alert)) },
       false) := by
  induction ps with
  | nil => intro s _; simp [notify_extensions]
  | cons p ps ih =>
    intro s h
    have hp : p.on_alert alert ≠ hook_outcome.other_exception := h p (List.mem_cons_self _ _)
    have hps : hooks_std ps alert := fun q hq => h q (List.mem_cons_of_mem _ hq)
    simp only [notify_extensions]
    cases ho : p.on_alert alert with
    | returns => simp [ih _ hps, List.append_assoc]
    | std_exception => simp [ih _ hps, List.append_assoc]
    | other_exception => exact absurd ho hp

/-- A returning `do_enqueue_alert` touches only the ring and the callback
counters; a rejecting one touches nothing. -/
theorem do_enqueue_alert_frame (s s2 : alert_manager) (a : Alert) (p : Nat) (b : Bool)
    (h : do_enqueue_alert s a p = some (b, s2)) :
    s2.m_ses_extensions = s.m_ses_extensions ∧
    s2.m_ses_extensions_reliable = s.m_ses_extensions_reliable ∧
    s2.on_alert_log = s.on_alert_log ∧ s2.m_alerts_pool = s.m_alerts_pool ∧
    (b = false → s2 = s) := by
  unfold do_enqueue_alert at h
  simp only at h
  split_ifs at h with hge
  · simp only [Option.some.injEq, Prod.mk.injEq] at h
    obtain ⟨rfl, rfl⟩ := h
    simp
  · cases hsl : s.m_alerts (next_slot s.m_queue_size_limit s.m_queue_write_slot) with
    | some v => simp [hsl] at h
    | none =>
      simp only [hsl, Option.some.injEq, Prod.mk.injEq] at h
      obtain ⟨rfl, rfl⟩ := h
      simp only [publish]
      split_ifs <;> simp

/-- C7, as amended: without a dispatch function, and when no hook of the
notified list raises anything but a `std::exception`, `emplace_alert` returns
what `do_enqueue_alert` returns for the new alert (and does not return when
that call does not). When the alert is accepted, `on_alert` is called exactly
once for each entry of `m_ses_extensions`, in order, and for nothing else.
When it is dropped, `on_alert` is called exactly once for each entry of
`m_ses_extensions_reliable` and for nothing else, the ring is as
`do_enqueue_alert` found it (so the alert is in no slot unless its block
already was) and the block is appended to the free list of its type.
Scenario S4: limit 1, one reliable extension, a third priority-1 post is
dropped and the extension is handed that alert once. -/
theorem emplace_alert_outcome (T : alert_class) (s : alert_manager)
    (hd : s.m_dispatch = false) :
    (do_enqueue_alert (emplace_prepare T s).2 (emplace_prepare T s).1 T.priority = none →
      emplace_alert T s = none) ∧
    (∀ s2, do_enqueue_alert (emplace_prepare T s).2 (emplace_prepare T s).1 T.priority
        = some (true, s2) →
      hooks_std s.m_ses_extensions (emplace_prepare T s).1 →
      emplace_alert T s = some (call_end.returned true,
        { s2 with on_alert_log := s.on_alert_log ++
            s.m_ses_extensions.map (fun p => (p.id, (emplace_prepare T s).1)) })) ∧
    (∀ s2, do_enqueue_alert (emplace_prepare T s).2 (emplace_prepare T s).1 T.priority
        = some (false, s2) →
      hooks_std s.m_ses_extensions_reliable (emplace_prepare T s).1 →
      ∃ s', emplace_alert T s = some (call_end.returned false, s') ∧
        s'.on_alert_log = s.on_alert_log ++
          s.m_ses_extensions_reliable.map (fun p => (p.id, (emplace_prepare T s).1)) ∧
        s'.m_alerts = s.m_alerts ∧ s'.m_queue_size = s.m_queue_size ∧
        s'.m_queue_write_slot = s.m_queue_write_slot ∧
        s'.m_queue_read_slot = s.m_queue_read_slot ∧
        s'.notify_calls = s.notify_calls ∧
        ((∀ i, s.m_alerts i ≠ some (emplace_prepare T s).1) →
          ∀ i, s'.m_alerts i ≠ some (emplace_prepare T s).1) ∧
        s'.m_alerts_pool.m_pool T.alert_type =
          (emplace_prepare T s).2.m_alerts_pool.m_pool T.alert_type
            ++ [(emplace_prepare T s).1]) ∧
    ((emplace_alert urgent_class reliable_manager).bind (fun r1 =>
        (emplace_alert urgent_class r1.2).bind (fun r2 =>
          (emplace_alert urgent_class r2.2).map (fun r3 =>
            (r1.1, r2.1, r3.1, r2.2.m_queue_size, r3.2.on_alert_log,
              r3.2.m_alerts_pool.m_pool 5))))
      = some (call_end.returned true, call_end.returned true, call_end.returned false, 2,
          [(7, 102)], [102])) := by
  have hprep : (emplace_prepare T s).2.m_ses_extensions = s.m_ses_extensions ∧
      (emplace_prepare T s).2.m_ses_extensions_reliable = s.m_ses_extensions_reliable ∧
      (emplace_prepare T s).2.on_alert_log = s.on_alert_log ∧
      (emplace_prepare T s).2.m_alerts = s.m_alerts ∧
      (emplace_prepare T s).2.m_queue_size = s.m_queue_size ∧
      (emplace_prepare T s).2.m_queue_write_slot = s.m_queue_write_slot ∧
      (emplace_prepare T s).2.m_queue_read_slot = s.m_queue_read_slot ∧
      (emplace_prepare T s).2.notify_calls = s.notify_calls := by
    simp [emplace_prepare]
  obtain ⟨hx, hxr, hlog, hal, hsz, hws, hrs, hnc⟩ := hprep
  refine ⟨?_, ?_, ?_, by rfl⟩
  · intro h
    simp only [emplace_alert, hd, h]
    simp
  · intro s2 h hstd
    obtain ⟨f1, -, f3, -, -⟩ := do_enqueue_alert_frame _ _ _ _ _ h
    simp only [emplace_alert, hd, h]
    rw [f1, hx, notify_extensions_eq _ _ _ hstd]
    simp only [Bool.false_eq_true, if_false, f3, hlog]
    simp [f1, hx]
  · intro s2 h hstd
    obtain ⟨-, -, -, -, f5⟩ := do_enqueue_alert_frame _ _ _ _ _ h
    have hs2 : s2 = (emplace_prepare T s).2 := f5 rfl
    simp only [emplace_alert, hd, h]
    simp only [Bool.false_eq_true, if_false]
    rw [hs2, hxr, notify_extensions_eq _ _ _ hstd]
    simp only [Bool.false_eq_true, if_false]
    split_ifs with he
    · refine ⟨_, rfl, ?_, hal, hsz, hws, hrs, hnc, ?_, ?_⟩
      · simp [hlog]
      · intro hfree i
        rw [hal]; exact hfree i
      · simp [alert_pool.release]
    · have hnil : s.m_ses_extensions_reliable = [] := by
        cases hr : s.m_ses_extensions_reliable with
        | nil => rfl
        | cons p ps => simp [hr] at he
      refine ⟨_, rfl, ?_, hal, hsz, hws, hrs, hnc, ?_, ?_⟩
      · simp [hlog, hnil]
      · intro hfree i
        rw [hal]; exact hfree i
      · simp [alert_pool.release]

/-- Instance of `emplace_alert_outcome`: scenario S4, the first post. -/
theorem emplace_alert_outcome_witness :
    reliable_manager.m_dispatch = false ∧
    hooks_std reliable_manager.m_ses_extensions
      (emplace_prepare urgent_class reliable_manager).1 ∧
    (emplace_alert urgent_class reliable_manager).map (fun r => r.1)
      = some (call_end.returned true) := by
  refine ⟨rfl, by decide, ?_⟩
  have h := (emplace_alert_outcome urgent_class reliable_manager rfl).2.1
  cases hq : do_enqueue_alert (emplace_prepare urgent_class reliable_manager).2
      (emplace_prepare urgent_class reliable_manager).1 urgent_class.priority with
  | none =>
    have hn : (do_enqueue_alert (emplace_prepare urgent_class reliable_manager).2
      (emplace_prepare urgent_class reliable_manager).1 urgent_class.priority).isSome
        = true := by decide
    rw [hq] at hn
    simp at hn
  | some r =>
    obtain ⟨b, s2⟩ := r
    have hb : (do_enqueue_alert (emplace_prepare urgent_class reliable_manager).2
      (emplace_prepare urgent_class reliable_manager).1 urgent_class.priority).map
        (fun r => r.1) = some true := by decide
    rw [hq] at hb
    simp only [Option.map_some', Option.some.injEq] at hb
    subst hb
    rw [h s2 hq (by decide)]
    rfl

/-- C7 as stated fails: with the extension 7 in both lists, an accepted
alert is handed to it, although it is a reliable extension; and the same
state with a full ring hands a dropped alert to it, although it is a normal
extension. And when the hook of a normal extension raises an object that is
not a `std::exception`, `emplace_alert` does not return true although
`do_enqueue_alert` accepted the alert: the exception leaves it. -/
theorem emplace_alert_shared_extension :
    shared_extension_manager.m_dispatch = false ∧
    (∃ p ∈ shared_extension_manager.m_ses_extensions_reliable, p.id = 7) ∧
    (∃ p ∈ shared_extension_manager.m_ses_extensions, p.id = 7) ∧
    (emplace_alert urgent_class shared_extension_manager).map
        (fun r => (r.1, r.2.on_alert_log)) = some (call_end.returned true, [(7, 100)]) ∧
    ((emplace_alert urgent_class shared_extension_manager).bind (fun r1 =>
        (emplace_alert urgent_class r1.2).bind (fun r2 =>
          (emplace_alert urgent_class r2.2).map (fun r3 => (r3.1, r3.2.on_alert_log))))
      = some (call_end.returned false, [(7, 100), (7, 101), (7, 102)])) ∧
    (emplace_alert urgent_class
        { empty_manager 1 0 with
          m_ses_extensions := [⟨1, fun _ => hook_outcome.other_exception⟩] }).map
        (fun r => (r.1, r.2.m_queue_size)) = some (call_end.raised, 1) := by
  refine ⟨rfl, ⟨⟨7, fun _ => hook_outcome.returns⟩, by simp [shared_extension_manager], rfl⟩,
    ⟨⟨7, fun _ => hook_outcome.returns⟩, by simp [shared_extension_manager], rfl⟩,
    by decide, by decide, by decide⟩

/-! ## Latch exclusion -/

theorem le_sum_map_of_getElem? {α : Type} (f : α → Nat) : ∀ (l : List α) (i : Nat) (t : α),
    l[i]? = some t → f t ≤ (l.map f).sum := by
  intro l
  induction l with
  | nil => intro i t h; simp at h
  | cons x xs ih =>
    intro i t h
    cases i with
    | zero =>
      simp only [List.getElem?_cons_zero, Option.some.injEq] at h
      subst h
      simp
    | succ i =>
      simp only [List.getElem?_cons_succ] at h
      have := ih i t h
      simp only [List.map_cons, List.sum_cons]
      omega

theorem le_sum_map_of_mem {α : Type} (f : α → Nat) (l : List α) (t : α) (h : t ∈ l) :
    f t ≤ (l.map f).sum := by
  induction l with
  | nil => simp at h
  | cons x xs ih =>
    simp only [List.map_cons, List.sum_cons]
    rcases List.mem_cons.mp h with rfl | hm
    · omega
    · have := ih hm
      omega

theorem in_exclusive_le_raised_flag (pc : latch_pc) : in_exclusive pc ≤ raised_flag pc := by
  cases pc <;> simp [in_exclusive, raised_flag]

theorem raised_flag_le_holds_mutex (pc : latch_pc) : raised_flag pc ≤ holds_mutex pc := by
  cases pc <;> simp [raised_flag, holds_mutex]

theorem in_shared_le_counts_shared (pc : latch_pc) : in_shared pc ≤ counts_shared pc := by
  cases pc <;> simp [in_shared, counts_shared]

/-- One step of a thread keeps the latch invariant, stated on the sums of
the indicators before (`S M F X H`) and after (`S' M' F' X' H'`) the step. -/
theorem shared_lock_step_sums (x : Bool) (l : shared_lock) (pc : latch_pc)
    (S M F X H S' M' F' X' H' : Nat)
    (h1 : l.m_shared_locks = (S : Int)) (h2 : M = if l.m_mutex then 1 else 0)
    (h3 : F = if l.m_exclusive_lock then 1 else 0) (h4 : X = 0 ∨ H = 0)
    (e1 : S' + counts_shared pc = S + counts_shared (shared_lock_step x l pc).2)
    (e2 : M' + holds_mutex pc = M + holds_mutex (shared_lock_step x l pc).2)
    (e3 : F' + raised_flag pc = F + raised_flag (shared_lock_step x l pc).2)
    (e4 : X' + in_exclusive pc = X + in_exclusive (shared_lock_step x l pc).2)
    (e5 : H' + in_shared pc = H + in_shared (shared_lock_step x l pc).2)
    (b1 : counts_shared pc ≤ S) (b2 : holds_mutex pc ≤ M) (b3 : raised_flag pc ≤ F)
    (q1 : X' ≤ F') (q2 : F' ≤ M') (q3 : H' ≤ S') (q4 : X ≤ F) (q5 : H ≤ S) :
    (shared_lock_step x l pc).1.m_shared_locks = (S' : Int) ∧
    M' = (if (shared_lock_step x l pc).1.m_mutex then 1 else 0) ∧
    F' = (if (shared_lock_step x l pc).1.m_exclusive_lock then 1 else 0) ∧
    (X' = 0 ∨ H' = 0) := by
  obtain ⟨c, f, m⟩ := l
  simp only at h1 h2 h3
  by_cases hc : c > 0 <;> cases m <;> cases f <;> cases pc <;> cases x <;>
    simp only [shared_lock_step, counts_shared, holds_mutex, raised_flag, in_exclusive,
      in_shared, hc, if_true, if_false, Bool.false_eq_true]
      at h2 h3 e1 e2 e3 e4 e5 b1 b2 b3 ⊢ <;>
    omega

theorem latch_system_step_inv (i : Nat) (x : Bool) (σ : latch_system) (h : latch_inv σ) :
    latch_inv (latch_system_step i x σ) := by
  cases hi : σ.threads[i]? with
  | none => simp only [latch_system_step, hi]; exact h
  | some pc =>
    simp only [latch_system_step, hi]
    obtain ⟨h1, h2, h3, h4⟩ := h
    exact shared_lock_step_sums x σ.latch pc _ _ _ _ _ _ _ _ _ _ h1 h2 h3 h4
      (sum_map_set counts_shared σ.threads i pc (shared_lock_step x σ.latch pc).2 hi)
      (sum_map_set holds_mutex σ.threads i pc (shared_lock_step x σ.latch pc).2 hi)
      (sum_map_set raised_flag σ.threads i pc (shared_lock_step x σ.latch pc).2 hi)
      (sum_map_set in_exclusive σ.threads i pc (shared_lock_step x σ.latch pc).2 hi)
      (sum_map_set in_shared σ.threads i pc (shared_lock_step x σ.latch pc).2 hi)
      (le_sum_map_of_getElem? counts_shared σ.threads i pc hi)
      (le_sum_map_of_getElem? holds_mutex σ.threads i pc hi)
      (le_sum_map_of_getElem? raised_flag σ.threads i pc hi)
      (sum_map_le_sum_map in_exclusive raised_flag in_exclusive_le_raised_flag _)
      (sum_map_le_sum_map raised_flag holds_mutex raised_flag_le_holds_mutex _)
      (sum_map_le_sum_map in_shared counts_shared in_shared_le_counts_shared _)
      (sum_map_le_sum_map in_exclusive raised_flag in_exclusive_le_raised_flag _)
      (sum_map_le_sum_map in_shared counts_shared in_shared_le_counts_shared _)

theorem run_latch_inv (sched : List (Nat × Bool)) :
    ∀ σ : latch_system, latch_inv σ → latch_inv (run_latch sched σ) := by
  induction sched with
  | nil => intro σ h; exact h
  | cons a rest ih =>
    intro σ h
    obtain ⟨i, x⟩ := a
    exact ih _ (latch_system_step_inv i x σ h)

theorem sum_map_replicate_zero {α : Type} (f : α → Nat) (a : α) (h : f a = 0) (n : Nat) :
    ((List.replicate n a).map f).sum = 0 := by
  induction n with
  | zero => rfl
  | succ n ih => simp [List.replicate_succ, h]

theorem initial_latch_inv (n : Nat) : latch_inv (initial_latch n) := by
  refine ⟨?_, ?_, ?_, Or.inl ?_⟩
  · show (0 : Int) = (((List.replicate n latch_pc.idle).map counts_shared).sum : Nat)
    rw [sum_map_replicate_zero counts_shared latch_pc.idle rfl n]; rfl
  · show ((List.replicate n latch_pc.idle).map holds_mutex).sum = 0
    exact sum_map_replicate_zero holds_mutex latch_pc.idle rfl n
  · show ((List.replicate n latch_pc.idle).map raised_flag).sum = 0
    exact sum_map_replicate_zero raised_flag latch_pc.idle rfl n
  · show ((List.replicate n latch_pc.idle).map in_exclusive).sum = 0
    exact sum_map_replicate_zero in_exclusive latch_pc.idle rfl n

/-- C8: latch exclusion. For every number of threads and every interleaving
of the atomic steps of `shared_lock::lock` and `shared_lock::unlock` from the
initial latch, no reached state has a thread past `lock(exclusive)` (and not
yet in `unlock(exclusive)`) together with a thread past `lock(shared)` (and
not yet in `unlock(shared)`). Both kinds of holder are reachable: an
exclusive holder alone, two shared holders together, and a shared caller kept
at the mutex while the exclusive holder has the latch. -/
theorem latch_exclusion (n : Nat) (sched : List (Nat × Bool)) :
    ¬ (latch_pc.x_held ∈ (run_latch sched (initial_latch n)).threads ∧
       latch_pc.s_held ∈ (run_latch sched (initial_latch n)).threads) ∧
    (run_latch [(0, true), (0, true), (0, true), (0, true)] (initial_latch 2)).threads
      = [latch_pc.x_held, latch_pc.idle] ∧
    (run_latch [(0, false), (1, false), (0, false), (1, false), (0, false), (1, false)]
        (initial_latch 2)).threads = [latch_pc.s_held, latch_pc.s_held] ∧
    (run_latch [(0, true), (0, true), (0, true), (0, true), (1, false), (1, false),
        (1, false), (1, false), (1, false), (1, false)] (initial_latch 2)).threads
      = [latch_pc.x_held, latch_pc.s_mutex] := by
  refine ⟨?_, by decide, by decide, by decide⟩
  rintro ⟨hx, hs⟩
  obtain ⟨-, -, -, h4⟩ := run_latch_inv sched _ (initial_latch_inv n)
  have bx := le_sum_map_of_mem in_exclusive _ _ hx
  have bs := le_sum_map_of_mem in_shared _ _ hs
  simp only [in_exclusive, in_shared] at bx bs
  omega

/-! ## Arena isolation -/

theorem arena_kept_refl (g : Nat) (ts : thread_storage) : arena_kept g ts ts :=
  ⟨rfl, Nat.le_refl _, fun h => h⟩

theorem arena_kept_trans (g : Nat) (a b c : thread_storage)
    (h1 : arena_kept g a b) (h2 : arena_kept g b c) : arena_kept g a c :=
  ⟨h2.1.trans h1.1, Nat.le_trans h1.2.1 h2.2.1, fun h => h2.2.2 (h1.2.2 h)⟩

/-- An allocation keeps the generation and resets no allocator. -/
theorem owner_alloc_kept (ts : thread_storage) (n a g : Nat) :
    (ts.owner_alloc n a).m_generation = ts.m_generation ∧
    arena_kept g ts (ts.owner_alloc n a) := by
  refine ⟨rfl, ?_⟩
  unfold arena_kept thread_storage.owner_alloc
  by_cases hg : g = ts.m_generation
  · subst hg
    simp only [Function.update_same, thread_storage.current_allocator,
      stack_allocator.alloc]
    refine ⟨trivial, ?_, fun _ => trivial⟩
    split_ifs with ha
    · omega
    · have h1 : (ts.m_allocations ts.m_generation).offset
          ≤ ((ts.m_allocations ts.m_generation).offset + a - 1) / a * a := by
        have hpos : 0 < a := Nat.pos_of_ne_zero ha
        have hdm := Nat.div_add_mod ((ts.m_allocations ts.m_generation).offset + a - 1) a
        have hlt := Nat.mod_lt ((ts.m_allocations ts.m_generation).offset + a - 1) hpos
        rw [Nat.mul_comm] at hdm
        omega
      omega
  · simp only [Function.update_noteq hg]
    exact ⟨trivial, Nat.le_refl _, fun h => h⟩

theorem owner_allocs_kept (allocs : List (Nat × Nat)) (g : Nat) :
    ∀ ts : thread_storage, (owner_allocs allocs ts).m_generation = ts.m_generation ∧
      arena_kept g ts (owner_allocs allocs ts) := by
  induction allocs with
  | nil => intro ts; exact ⟨rfl, arena_kept_refl g ts⟩
  | cons x rest ih =>
    intro ts
    obtain ⟨n, a⟩ := x
    obtain ⟨h1, h2⟩ := ih (ts.owner_alloc n a)
    obtain ⟨h3, h4⟩ := owner_alloc_kept ts n a g
    exact ⟨h1.trans h3, arena_kept_trans g _ _ _ h4 h2⟩

/-- A call of `swap_allocators()` leaves every allocator but the one after
the current one as it is, and the generation where it is or one further. -/
theorem swap_allocators_kept (ts : thread_storage) (g : Nat)
    (hg : g ≠ (if ts.m_generation + 1 = 3 then 0 else ts.m_generation + 1)) :
    arena_kept g ts ts.swap_allocators ∧
    (ts.swap_allocators.m_generation = ts.m_generation ∨
     ts.swap_allocators.m_generation
        = (if ts.m_generation + 1 = 3 then 0 else ts.m_generation + 1)) := by
  unfold thread_storage.swap_allocators
  simp only
  generalize (if ts.m_generation + 1 = 3 then 0 else ts.m_generation + 1) = nx at hg ⊢
  by_cases hd : (!(ts.m_allocations ts.m_generation).dirty) = true
  · rw [if_pos hd]
    exact ⟨arena_kept_refl g ts, Or.inl rfl⟩
  · rw [if_neg hd]
    refine ⟨?_, Or.inr rfl⟩
    unfold arena_kept
    simp only [Function.update_noteq hg]
    exact ⟨trivial, Nat.le_refl _, fun h => h⟩

/-- C9: arena isolation. From any thread storage with generation `g` in
{0, 1, 2} and any dirty flags, let the owner allocate, the consumer call
`swap_allocators()`, the owner allocate, the consumer call
`swap_allocators()` again and the owner allocate once more. Neither call
resets the allocator that was current before the first call, and through the
whole sequence that allocator keeps what was allocated in it; the generation
stays in {0, 1, 2}. On `busy_storage` (generation 2) the two calls reset the
allocators 0 and 1 and leave allocator 2 alone. -/
theorem arena_isolation (ts : thread_storage) (pre mid post : List (Nat × Nat))
    (hg : ts.m_generation < 3) :
    arena_kept ts.m_generation (owner_allocs pre ts) (owner_allocs pre ts).swap_allocators ∧
    arena_kept ts.m_generation (owner_allocs mid (owner_allocs pre ts).swap_allocators)
      (owner_allocs mid (owner_allocs pre ts).swap_allocators).swap_allocators ∧
    arena_kept ts.m_generation ts (two_drains pre mid post ts) ∧
    (two_drains pre mid post ts).m_generation < 3 ∧
    ((List.range 3).map (fun i =>
        ((two_drains [] [(4, 1)] [] busy_storage).m_allocations i).resets) = [1, 2, 2] ∧
     (List.range 3).map (fun i => (busy_storage.m_allocations i).resets) = [0, 1, 2] ∧
     (two_drains [] [(4, 1)] [] busy_storage).m_generation = 1) := by
  obtain ⟨g0, k0⟩ := owner_allocs_kept pre ts.m_generation ts
  have hne1 : ts.m_generation ≠ (if (owner_allocs pre ts).m_generation + 1 = 3 then 0
      else (owner_allocs pre ts).m_generation + 1) := by
    rw [g0]; split_ifs <;> omega
  obtain ⟨k1, g1⟩ := swap_allocators_kept (owner_allocs pre ts) ts.m_generation hne1
  rw [g0] at g1
  obtain ⟨g2, k2⟩ := owner_allocs_kept mid ts.m_generation (owner_allocs pre ts).swap_allocators
  have hne2 : ts.m_generation ≠
      (if (owner_allocs mid (owner_allocs pre ts).swap_allocators).m_generation + 1 = 3 then 0
        else (owner_allocs mid (owner_allocs pre ts).swap_allocators).m_generation + 1) := by
    rw [g2]
    rcases g1 with g1 | g1 <;> rw [g1] <;> split_ifs <;> omega
  obtain ⟨k3, g3⟩ := swap_allocators_kept
    (owner_allocs mid (owner_allocs pre ts).swap_allocators) ts.m_generation hne2
  rw [g2] at g3
  obtain ⟨g4, k4⟩ := owner_allocs_kept post ts.m_generation
    (owner_allocs mid (owner_allocs pre ts).swap_allocators).swap_allocators
  refine ⟨k1, k3, ?_, ?_, by decide, by decide, by decide⟩
  · unfold two_drains
    exact arena_kept_trans _ _ _ _ k0
      (arena_kept_trans _ _ _ _ k1
        (arena_kept_trans _ _ _ _ k2 (arena_kept_trans _ _ _ _ k3 k4)))
  · unfold two_drains
    rw [g4]
    rcases g1 with g1 | g1 <;> rcases g3 with g3 | g3 <;> rw [g3] <;>
      (try rw [g1]) <;> (try split_ifs) <;> omega

/-- Instance of `arena_isolation`: `busy_storage`, one allocation between
the two calls. -/
theorem arena_isolation_witness :
    busy_storage.m_generation < 3 ∧
    arena_kept busy_storage.m_generation busy_storage
      (two_drains [] [(4, 1)] [] busy_storage) :=
  ⟨by decide, (arena_isolation busy_storage [] [(4, 1)] [] (by decide)).2.2.1⟩

/-! ## `real_size` under interleaving -/

/-- C10 fails on the code: on a ring of limit 1, after two producers have
reserved both slots and before either has added to `m_queue_size`, a third
producer finds `next == read_slot`, loads `m_queue_size = 0` and so computes
`real_size = 0` while two slots are reserved and not drained; its
compare-exchange succeeds and three slots are reserved in a ring of two.
Without a consumer the third producer then spins for ever on its slot. -/
theorem real_size_underestimates :
    empty_ring 1 three_producers.shared ∧
    (run_schedule two_reserved three_producers).reservations = 2 ∧
    (run_schedule two_reserved three_producers).shared.m_queue_size = 0 ∧
    (run_schedule (two_reserved ++ third_loads) three_producers).reservations = 2 ∧
    (run_schedule (two_reserved ++ third_loads) three_producers).threads.map
        (fun t => (t.pc, t.next, t.real_size))
      = [(enqueue_pc.cas_slot, 1, 0), (enqueue_pc.cas_slot, 0, 1),
         (enqueue_pc.cas_write, 1, 0)] ∧
    (run_schedule (two_reserved ++ third_loads ++ [2]) three_producers).reservations = 3 ∧
    2 * (run_schedule (two_reserved ++ third_loads ++ [2]) three_producers).shared.m_queue_size_limit
      = 2 ∧
    (run_schedule (two_reserved ++ third_loads ++ [2] ++ [0, 0, 1, 1, 2, 2, 2])
        three_producers).threads.map (fun t => (t.pc, t.spins, t.results))
      = [(enqueue_pc.idle, 0, [(1, true)]), (enqueue_pc.idle, 0, [(2, true)]),
         (enqueue_pc.cas_slot, 3, [])] := by
  refine ⟨by decide, by decide, by decide, by decide, by decide, by decide, by decide,
    by decide⟩

/-! ## The sequential call is the solo run of the atomic steps -/

/-- A producer running alone gives the result of the sequential
`do_enqueue_alert`: when the sequential call returns `b` in state `s'`, seven
steps of a lone producer (entering the call, the six atomic accesses at most)
leave the shared state `s'` and the return value `b`. -/
theorem solo_run_eq_do_enqueue_alert (s s' : alert_manager) (a : Alert) (p : Nat) (b : Bool)
    (h : do_enqueue_alert s a p = some (b, s')) :
    (run_schedule (List.replicate 7 0) (initial_system s [[(a, p)]])).shared = s' ∧
    (run_schedule (List.replicate 7 0) (initial_system s [[(a, p)]])).threads.map
      (fun t => t.results) = [[(a, b)]] := by
  unfold do_enqueue_alert at h
  simp only at h
  by_cases hgt : next_slot s.m_queue_size_limit s.m_queue_write_slot > s.m_queue_read_slot
  · simp only [real_size, hgt, if_true] at h
    split_ifs at h with hge
    · simp only [Option.some.injEq, Prod.mk.injEq] at h
      obtain ⟨rfl, rfl⟩ := h
      simp [run_schedule, system_step, producer_step, initial_system, new_producer,
        check_size, hgt, hge, List.replicate]
    · cases hsl : s.m_alerts (next_slot s.m_queue_size_limit s.m_queue_write_slot) with
      | some v => simp [hsl] at h
      | none =>
        simp only [hsl, Option.some.injEq, Prod.mk.injEq] at h
        obtain ⟨rfl, rfl⟩ := h
        simp [run_schedule, system_step, producer_step, initial_system, new_producer,
          check_size, hgt, hge, hsl, List.replicate]
  · by_cases hlt : next_slot s.m_queue_size_limit s.m_queue_write_slot < s.m_queue_read_slot
    · simp only [real_size, hgt, hlt, if_true, if_false] at h
      split_ifs at h with hge
      · simp only [Option.some.injEq, Prod.mk.injEq] at h
        obtain ⟨rfl, rfl⟩ := h
        simp [run_schedule, system_step, producer_step, initial_system, new_producer,
          check_size, hgt, hlt, hge, List.replicate]
      · cases hsl : s.m_alerts (next_slot s.m_queue_size_limit s.m_queue_write_slot) with
        | some v => simp [hsl] at h
        | none =>
          simp only [hsl, Option.some.injEq, Prod.mk.injEq] at h
          obtain ⟨rfl, rfl⟩ := h
          simp [run_schedule, system_step, producer_step, initial_system, new_producer,
            check_size, hgt, hlt, hge, hsl, List.replicate]
    · simp only [real_size, hgt, hlt, if_false] at h
      split_ifs at h with hge
      · simp only [Option.some.injEq, Prod.mk.injEq] at h
        obtain ⟨rfl, rfl⟩ := h
        simp [run_schedule, system_step, producer_step, initial_system, new_producer,
          check_size, hgt, hlt, hge, List.replicate]
      · cases hsl : s.m_alerts (next_slot s.m_queue_size_limit s.m_queue_write_slot) with
        | some v => simp [hsl] at h
        | none =>
          simp only [hsl, Option.some.injEq, Prod.mk.injEq] at h
          obtain ⟨rfl, rfl⟩ := h
          simp [run_schedule, system_step, producer_step, initial_system, new_producer,
            check_size, hgt, hlt, hge, hsl, List.replicate]

theorem run_schedule_append (xs ys : List Nat) : ∀ σ : system,
    run_schedule (xs ++ ys) σ = run_schedule ys (run_schedule xs σ) := by
  induction xs with
  | nil => intro σ; rfl
  | cons x xs ih => intro σ; exact ih (system_step x σ)

/-- A lone producer at the slot spin whose slot is occupied stays there. -/
theorem solo_spin_stays (n : Nat) : ∀ (σ : system) (t : producer), σ.threads = [t] →
    t.pc = enqueue_pc.cas_slot → σ.shared.m_alerts t.next ≠ none → t.results = [] →
    (run_schedule (List.replicate n 0) σ).threads.map (fun t => (t.pc, t.results))
      = [(enqueue_pc.cas_slot, [])] := by
  induction n with
  | zero =>
    intro σ t ht hpc _ hres
    simp [run_schedule, ht, hpc, hres]
  | succ n ih =>
    intro σ t ht hpc hsl hres
    simp only [List.replicate_succ, run_schedule]
    cases hv : σ.shared.m_alerts t.next with
    | none => exact absurd hv hsl
    | some v =>
      apply ih (system_step 0 σ) { t with spins := t.spins + 1 }
      · simp [system_step, ht, producer_step, hpc, hv]
      · exact hpc
      · simp [system_step, ht, producer_step, hpc, hv]
      · exact hres

/-- When the sequential `do_enqueue_alert` does not return, a producer
running alone never returns either: from its sixth step on it is in the spin
of line 352, whatever the number of further steps. -/
theorem solo_run_spins (s : alert_manager) (a : Alert) (p : Nat)
    (h : do_enqueue_alert s a p = none) (n : Nat) :
    (run_schedule (List.replicate (6 + n) 0) (initial_system s [[(a, p)]])).threads.map
      (fun t => (t.pc, t.results)) = [(enqueue_pc.cas_slot, [])] := by
  rw [List.replicate_add, run_schedule_append]
  unfold do_enqueue_alert at h
  simp only at h
  cases hsl : s.m_alerts (next_slot s.m_queue_size_limit s.m_queue_write_slot) with
  | none =>
    split_ifs at h
    simp [hsl] at h
  | some v =>
    by_cases hgt : next_slot s.m_queue_size_limit s.m_queue_write_slot > s.m_queue_read_slot
    · simp only [real_size, hgt, if_true] at h
      split_ifs at h with hge
      apply solo_spin_stays n _ _ _ _ _ _
      · exact { new_producer [] with
          a := a, priority := p, size_limit := s.m_queue_size_limit
          current := s.m_queue_write_slot
          next := next_slot s.m_queue_size_limit s.m_queue_write_slot
          read_slot := s.m_queue_read_slot
          real_size := next_slot s.m_queue_size_limit s.m_queue_write_slot
            - s.m_queue_read_slot
          pc := enqueue_pc.cas_slot, spins := 2 }
      · simp [run_schedule, system_step, producer_step, initial_system, new_producer,
          check_size, hgt, hge, hsl, List.replicate]
      · rfl
      · simp [run_schedule, system_step, producer_step, initial_system, new_producer,
          check_size, hgt, hge, hsl, List.replicate]
      · rfl
    · by_cases hlt : next_slot s.m_queue_size_limit s.m_queue_write_slot
          < s.m_queue_read_slot
      · simp only [real_size, hgt, hlt, if_true, if_false] at h
        split_ifs at h with hge
        apply solo_spin_stays n _ _ _ _ _ _
        · exact { new_producer [] with
            a := a, priority := p, size_limit := s.m_queue_size_limit
            current := s.m_queue_write_slot
            next := next_slot s.m_queue_size_limit s.m_queue_write_slot
            read_slot := s.m_queue_read_slot
            real_size := s.m_queue_size_limit * 2 - (s.m_queue_read_slot
              - next_slot s.m_queue_size_limit s.m_queue_write_slot)
            pc := enqueue_pc.cas_slot, spins := 2 }
        · simp [run_schedule, system_step, producer_step, initial_system, new_producer,
            check_size, hgt, hlt, hge, hsl, List.replicate]
        · rfl
        · simp [run_schedule, system_step, producer_step, initial_system, new_producer,
            check_size, hgt, hlt, hge, hsl, List.replicate]
        · rfl
      · simp only [real_size, hgt, hlt, if_false] at h
        split_ifs at h with hge
        apply solo_spin_stays n _ _ _ _ _ _
        · exact { new_producer [] with
            a := a, priority := p, size_limit := s.m_queue_size_limit
            current := s.m_queue_write_slot
            next := next_slot s.m_queue_size_limit s.m_queue_write_slot
            read_slot := s.m_queue_read_slot
            real_size := s.m_queue_size
            pc := enqueue_pc.cas_slot, spins := 1 }
        · simp [run_schedule, system_step, producer_step, initial_system, new_producer,
            check_size, hgt, hlt, hge, hsl, List.replicate]
        · rfl
        · simp [run_schedule, system_step, producer_step, initial_system, new_producer,
            check_size, hgt, hlt, hge, hsl, List.replicate]
        · rfl

/-! ## Size and occupied slots -/

/-- `do_enqueue_alert` does not look at the hooks. -/
theorem do_enqueue_alert_calm_hooks (s : alert_manager) (a : Alert) (p : Nat) :
    do_enqueue_alert (calm_hooks s) a p
      = (do_enqueue_alert s a p).map (fun r => (r.1, calm_hooks r.2)) := by
  unfold do_enqueue_alert
  simp only [calm_hooks]
  split_ifs with hge
  · rfl
  · cases hsl : s.m_alerts (next_slot s.m_queue_size_limit s.m_queue_write_slot) with
    | some v => simp
    | none =>
      simp only [Option.map_some', publish]
      split_ifs <;> rfl

theorem emplace_prepare_calm_hooks (T : alert_class) (s : alert_manager) :
    emplace_prepare T (calm_hooks s)
      = ((emplace_prepare T s).1, calm_hooks (emplace_prepare T s).2) := by
  simp [emplace_prepare, calm_hooks]

theorem hooks_std_map_calm (ps : List plugin) (alert : Alert) :
    hooks_std (ps.map calm) alert := by
  intro p hp
  simp only [List.mem_map] at hp
  obtain ⟨q, -, rfl⟩ := hp
  simp [calm]

theorem map_id_map_calm (ps : List plugin) (alert : Alert) :
    (ps.map calm).map (fun p => (p.id, alert)) = ps.map (fun p => (p.id, alert)) := by
  simp [List.map_map, Function.comp, calm]

/-- With hooks that raise at most `std::exception`, `emplace_alert` ends as
it does with hooks that all return: same return value, same ring, same calls
of `on_alert`. -/
theorem emplace_alert_calm_hooks (T : alert_class) (s : alert_manager)
    (h1 : hooks_std s.m_ses_extensions (emplace_prepare T s).1)
    (h2 : hooks_std s.m_ses_extensions_reliable (emplace_prepare T s).1) :
    (emplace_alert T s).map (fun r => (r.1, r.2.m_alerts, r.2.m_queue_size,
        r.2.m_queue_write_slot, r.2.m_queue_read_slot, r.2.on_alert_log))
      = (emplace_alert T (calm_hooks s)).map (fun r => (r.1, r.2.m_alerts, r.2.m_queue_size,
        r.2.m_queue_write_slot, r.2.m_queue_read_slot, r.2.on_alert_log)) := by
  by_cases hd : s.m_dispatch = true
  · have hd' : (calm_hooks s).m_dispatch = true := hd
    simp only [emplace_alert, hd, hd', if_true, Option.map_some']
    rfl
  · have hd' : ¬ (calm_hooks s).m_dispatch = true := hd
    simp only [emplace_alert, hd, hd', if_false]
    rw [emplace_prepare_calm_hooks]
    simp only []
    rw [do_enqueue_alert_calm_hooks]
    cases hq : do_enqueue_alert (emplace_prepare T s).2 (emplace_prepare T s).1 T.priority with
    | none => rfl
    | some r =>
      obtain ⟨b, s2⟩ := r
      obtain ⟨f1, f2, -, -, -⟩ := do_enqueue_alert_frame _ _ _ _ _ hq
      have e1 : s2.m_ses_extensions = s.m_ses_extensions := by
        rw [f1]; simp [emplace_prepare]
      have e2 : s2.m_ses_extensions_reliable = s.m_ses_extensions_reliable := by
        rw [f2]; simp [emplace_prepare]
      have c1 : (calm_hooks s2).m_ses_extensions = s.m_ses_extensions.map calm := by
        simp [calm_hooks, e1]
      have c2 : (calm_hooks s2).m_ses_extensions_reliable
          = s.m_ses_extensions_reliable.map calm := by
        simp [calm_hooks, e2]
      cases b with
      | true =>
        simp only [Option.map_some']
        rw [e1, c1, notify_extensions_eq _ _ _ h1,
          notify_extensions_eq _ _ _ (hooks_std_map_calm _ _), map_id_map_calm]
        simp [calm_hooks]
      | false =>
        simp only [Option.map_some']
        rw [e2, c2, notify_extensions_eq _ _ _ h2,
          notify_extensions_eq _ _ _ (hooks_std_map_calm _ _), map_id_map_calm]
        cases hr : s.m_ses_extensions_reliable <;> simp [calm_hooks]

/-- C12, as amended: for every extension list whose hooks raise nothing but
`std::exception`, and every alert, `notify_extensions` calls `on_alert` on
every extension of the list exactly once, in list order, also when earlier
extensions raise a `std::exception`; no exception leaves it and nothing but
the record of the calls changes. So such a raising hook changes neither how
`emplace_alert` ends nor the ring: the call ends as with hooks that all
return. On `std_throwing_list` the three hooks are called in order although
the second raises. -/
theorem hook_exceptions_swallowed (T : alert_class) (alert : Alert) (ps : List plugin)
    (s : alert_manager) (hps : hooks_std ps alert)
    (h1 : hooks_std s.m_ses_extensions (emplace_prepare T s).1)
    (h2 : hooks_std s.m_ses_extensions_reliable (emplace_prepare T s).1) :
    notify_extensions alert ps s =
      ({ s with on_alert_log := s.on_alert_log ++ ps.map (fun p => (p.id, alert)) },
       false) ∧
    (emplace_alert T s).map (fun r => (r.1, r.2.m_alerts, r.2.m_queue_size,
        r.2.m_queue_write_slot, r.2.m_queue_read_slot, r.2.on_alert_log))
      = (emplace_alert T (calm_hooks s)).map (fun r => (r.1, r.2.m_alerts, r.2.m_queue_size,
        r.2.m_queue_write_slot, r.2.m_queue_read_slot, r.2.on_alert_log)) ∧
    ((notify_extensions 9 std_throwing_list (empty_manager 1 0)).1.on_alert_log
        = [(1, 9), (2, 9), (3, 9)] ∧
     (notify_extensions 9 std_throwing_list (empty_manager 1 0)).2 = false) :=
  ⟨notify_extensions_eq alert ps s hps, emplace_alert_calm_hooks T s h1 h2,
    by decide, by decide⟩

/-- Instance of `hook_exceptions_swallowed`: `std_throwing_list` and an
alert manager of limit 1 without extensions of its own. -/
theorem hook_exceptions_swallowed_witness :
    hooks_std std_throwing_list 9 ∧
    hooks_std (empty_manager 1 0).m_ses_extensions
      (emplace_prepare urgent_class (empty_manager 1 0)).1 ∧
    hooks_std (empty_manager 1 0).m_ses_extensions_reliable
      (emplace_prepare urgent_class (empty_manager 1 0)).1 ∧
    notify_extensions 9 std_throwing_list (empty_manager 1 0) =
      ({ empty_manager 1 0 with
          on_alert_log := (empty_manager 1 0).on_alert_log ++
            std_throwing_list.map (fun p => (p.id, 9)) },
       false) :=
  ⟨by decide, by decide, by decide,
   (hook_exceptions_swallowed urgent_class 9 std_throwing_list (empty_manager 1 0)
      (by decide) (by decide) (by decide)).1⟩

/-- C12 as stated fails: when the hook of the first extension raises an
object that is not a `std::exception`, no handler of `notify_extensions`
matches; the exception leaves `notify_extensions`, the second extension is not
called, and `emplace_alert`, which would return true with hooks that return,
is left by the exception after the alert was put in the ring. -/
theorem hook_exception_escapes :
    (notify_extensions 9 other_throwing_list (empty_manager 1 0)).2 = true ∧
    (notify_extensions 9 other_throwing_list (empty_manager 1 0)).1.on_alert_log = [(1, 9)] ∧
    other_throwing_manager.m_dispatch = false ∧
    (emplace_alert urgent_class other_throwing_manager).map
        (fun r => (r.1, r.2.m_queue_size, r.2.on_alert_log))
      = some (call_end.raised, 1, [(1, 100)]) ∧
    (emplace_alert urgent_class (calm_hooks other_throwing_manager)).map
        (fun r => (r.1, r.2.m_queue_size, r.2.on_alert_log))
      = some (call_end.returned true, 1, [(1, 100), (2, 100)]) := by
  refine ⟨by decide, by decide, rfl, by decide, by decide⟩

/-! ## The alert mask -/

/-- C13: `should_post`. For every 32-bit mask `m` and every alert class
`K`, after `set_alert_mask(m)` the call `alert_mask()` returns `m` and
`should_post<K>()` returns true exactly when `m AND K::static_category` is not
zero. Neither call changes the state, so a call of `should_post<K>()` after
any other `should_post` or `alert_mask` call returns what the first one
would. -/
theorem should_post_mask (s : alert_manager) (m : Nat) (K K' : alert_class)
    (hm : m < 2 ^ 32) :
    (alert_mask (set_alert_mask s m)).1 = m ∧
    ((should_post K (set_alert_mask s m)).1 = true ↔ m &&& K.static_category ≠ 0) ∧
    (should_post K (set_alert_mask s m)).2 = set_alert_mask s m ∧
    (alert_mask (set_alert_mask s m)).2 = set_alert_mask s m ∧
    (should_post K (should_post K' (set_alert_mask s m)).2).1
      = (should_post K (set_alert_mask s m)).1 ∧
    (should_post K (alert_mask (set_alert_mask s m)).2).1
      = (should_post K (set_alert_mask s m)).1 := by
  have hmod : m % 2 ^ 32 = m := Nat.mod_eq_of_lt hm
  refine ⟨?_, ?_, rfl, rfl, rfl, rfl⟩
  · simp only [alert_mask, set_alert_mask, hmod]
  · simp only [should_post, set_alert_mask, hmod]
    simp

/-- Instance of `should_post_mask`: the mask 6 against the categories 2
and 1. -/
theorem should_post_mask_witness :
    (6 : Nat) < 2 ^ 32 ∧
    (alert_mask (set_alert_mask (empty_manager 1 0) 6)).1 = 6 ∧
    (should_post { urgent_class with static_category := 2 }
      (set_alert_mask (empty_manager 1 0) 6)).1 = true ∧
    (should_post urgent_class (set_alert_mask (empty_manager 1 0) 6)).1 = false := by
  have h := should_post_mask (empty_manager 1 0) 6 { urgent_class with static_category := 2 }
    urgent_class (by decide)
  refine ⟨by decide, h.1, h.2.1.mpr (by decide), by decide⟩

/-! ## The rotation step -/

/-- C14: rotation step. For every thread storage with generation `g` in
{0, 1, 2}: when the allocator `g` is not dirty, `swap_allocators()` changes
nothing; when it is dirty, the generation becomes `(g + 1) mod 3`, the
allocator `(g + 1) mod 3` is reset and every other allocator, `g` included,
is as before. In both cases the generation stays in {0, 1, 2}. -/
theorem rotation_step (ts : thread_storage) (hg : ts.m_generation < 3) :
    ((ts.m_allocations ts.m_generation).dirty = false → ts.swap_allocators = ts) ∧
    ((ts.m_allocations ts.m_generation).dirty = true →
      ts.swap_allocators.m_generation = (ts.m_generation + 1) % 3 ∧
      ts.swap_allocators.m_allocations ((ts.m_generation + 1) % 3)
        = (ts.m_allocations ((ts.m_generation + 1) % 3)).reset ∧
      (∀ i, i ≠ (ts.m_generation + 1) % 3 →
        ts.swap_allocators.m_allocations i = ts.m_allocations i) ∧
      ts.swap_allocators.m_allocations ts.m_generation = ts.m_allocations ts.m_generation) ∧
    ts.swap_allocators.m_generation < 3 := by
  have hnx : (if ts.m_generation + 1 = 3 then 0 else ts.m_generation + 1)
      = (ts.m_generation + 1) % 3 := by
    split_ifs <;> omega
  refine ⟨?_, ?_, ?_⟩
  · intro hd
    simp [thread_storage.swap_allocators, hd]
  · intro hd
    simp only [thread_storage.swap_allocators, hd, Bool.not_true, Bool.false_eq_true,
      if_false, hnx]
    refine ⟨trivial, by simp, ?_, ?_⟩
    · intro i hi
      simp [Function.update_noteq hi]
    · have hne : ts.m_generation ≠ (ts.m_generation + 1) % 3 := by omega
      simp [Function.update_noteq hne]
  · unfold thread_storage.swap_allocators
    simp only [hnx]
    split_ifs
    · exact hg
    · show (ts.m_generation + 1) % 3 < 3
      omega

/-- Instance of `rotation_step`: `busy_storage`, generation 2 and dirty. -/
theorem rotation_step_witness :
    busy_storage.m_generation < 3 ∧
    (busy_storage.m_allocations busy_storage.m_generation).dirty = true ∧
    busy_storage.swap_allocators.m_generation = 0 ∧
    (busy_storage.swap_allocators.m_allocations 0).resets = 1 ∧
    (busy_storage.swap_allocators.m_allocations 0).dirty = false := by
  have h := ((rotation_step busy_storage (by decide)).2.1 rfl)
  refine ⟨by decide, rfl, h.1, ?_, ?_⟩
  · rw [show (0 : Nat) = (busy_storage.m_generation + 1) % 3 from rfl, h.2.1]; rfl
  · rw [show (0 : Nat) = (busy_storage.m_generation + 1) % 3 from rfl, h.2.1]; rfl

/-! ## Pool reuse -/

theorem empty_pool_ok (m : Nat) : pool_ok (empty_pool m) := by
  refine ⟨?_, ?_, ?_, ?_, ?_, ?_⟩ <;> simp [empty_pool]

/-- A call that follows the protocol keeps the blocks distinct, and an
`acquire` then returns a block that is not held. -/
theorem pool_step_ok (o : pool_op) (σ : pool_state) (h : pool_ok σ)
    (hl : match o with
      | pool_op.acquire _ => True
      | pool_op.release alert _ => alert ∈ σ.held) :
    pool_ok (pool_step o σ).1 ∧
    (match (pool_step o σ).2 with
      | none => True
      | some b => b ∉ σ.held) := by
  obtain ⟨hnd, hdis, hfh, hh, hlt, hhl⟩ := h
  cases o with
  | acquire k =>
    cases hk : σ.pool.m_pool k with
    | nil =>
      have hacq : σ.pool.acquire k σ.malloc_next = (σ.malloc_next, σ.pool, σ.malloc_next + 1) := by
        simp [alert_pool.acquire, hk]
      simp only [pool_step, hacq]
      have hfresh : σ.malloc_next ∉ σ.held := fun hm => Nat.lt_irrefl _ (hhl _ hm)
      refine ⟨⟨hnd, hdis, ?_, ?_, ?_, ?_⟩, hfresh⟩
      · intro k' b hb hmem
        rcases List.mem_cons.mp hmem with rfl | hm
        · exact Nat.lt_irrefl _ (hlt k' _ hb)
        · exact hfh k' b hb hm
      · exact List.nodup_cons.mpr ⟨hfresh, hh⟩
      · intro k' b hb
        exact Nat.lt_succ_of_lt (hlt k' b hb)
      · intro b hb
        rcases List.mem_cons.mp hb with rfl | hm
        · exact Nat.lt_succ_self _
        · exact Nat.lt_succ_of_lt (hhl b hm)
    | cons front rest =>
      have hacq : σ.pool.acquire k σ.malloc_next
          = (front, { m_pool := Function.update σ.pool.m_pool k rest }, σ.malloc_next) := by
        simp [alert_pool.acquire, hk]
      simp only [pool_step, hacq]
      have hfm : front ∈ σ.pool.m_pool k := by rw [hk]; exact List.mem_cons_self _ _
      have hrest : ∀ b ∈ rest, b ∈ σ.pool.m_pool k := by
        intro b hb; rw [hk]; exact List.mem_cons_of_mem _ hb
      have hndk := hnd k
      rw [hk] at hndk
      obtain ⟨hfr, hndr⟩ := List.nodup_cons.mp hndk
      have hfresh : front ∉ σ.held := hfh k front hfm
      have hsub : ∀ k' b, b ∈ Function.update σ.pool.m_pool k rest k' → b ∈ σ.pool.m_pool k' := by
        intro k' b hb
        by_cases hkk : k' = k
        · subst hkk
          rw [Function.update_same] at hb
          exact hrest b hb
        · rw [Function.update_noteq hkk] at hb
          exact hb
      refine ⟨⟨?_, ?_, ?_, ?_, ?_, ?_⟩, hfresh⟩
      · intro k'
        by_cases hkk : k' = k
        · subst hkk
          simp only [Function.update_same]
          exact hndr
        · simp only [Function.update_noteq hkk]
          exact hnd k'
      · intro k1 k2 hne b hb1 hb2
        exact hdis k1 k2 hne b (hsub k1 b hb1) (hsub k2 b hb2)
      · intro k' b hb hmem
        dsimp only at hb hmem
        rcases List.mem_cons.mp hmem with rfl | hm
        · by_cases hkk : k' = k
          · subst hkk
            rw [Function.update_same] at hb
            exact hfr hb
          · rw [Function.update_noteq hkk] at hb
            exact hdis k' k hkk b hb hfm
        · exact hfh k' b (hsub k' b hb) hm
      · exact List.nodup_cons.mpr ⟨hfresh, hh⟩
      · intro k' b hb
        exact hlt k' b (hsub k' b hb)
      · intro b hb
        rcases List.mem_cons.mp hb with rfl | hm
        · exact hlt k _ hfm
        · exact hhl b hm
  | release a k =>
    simp only [pool_step, alert_pool.release]
    have ha : a ∈ σ.held := hl
    have hmem : ∀ k' b, b ∈ Function.update σ.pool.m_pool k (σ.pool.m_pool k ++ [a]) k' →
        b ∈ σ.pool.m_pool k' ∨ (k' = k ∧ b = a) := by
      intro k' b hb
      by_cases hkk : k' = k
      · subst hkk
        rw [Function.update_same, List.mem_append] at hb
        rcases hb with hb | hb
        · exact Or.inl hb
        · exact Or.inr ⟨rfl, List.mem_singleton.mp hb⟩
      · rw [Function.update_noteq hkk] at hb
        exact Or.inl hb
    have hanot : ∀ k', a ∉ σ.pool.m_pool k' := fun k' hm => hfh k' a hm ha
    refine ⟨⟨?_, ?_, ?_, ?_, ?_, ?_⟩, trivial⟩
    · intro k'
      by_cases hkk : k' = k
      · subst hkk
        simp only [Function.update_same]
        rw [List.nodup_append]
        refine ⟨hnd k', List.nodup_singleton a, ?_⟩
        intro b hb hb'
        rw [List.mem_singleton] at hb'
        subst hb'
        exact hanot k' hb
      · simp only [Function.update_noteq hkk]
        exact hnd k'
    · intro k1 k2 hne b hb1 hb2
      rcases hmem k1 b hb1 with h1 | ⟨rfl, rfl⟩
      · rcases hmem k2 b hb2 with h2 | ⟨rfl, rfl⟩
        · exact hdis k1 k2 hne b h1 h2
        · exact hanot k1 h1
      · rcases hmem k2 b hb2 with h2 | ⟨hk2, -⟩
        · exact hanot k2 h2
        · exact hne hk2.symm
    · intro k' b hb hheld
      have hbh : b ∈ σ.held := List.mem_of_mem_erase hheld
      rcases hmem k' b hb with h1 | ⟨-, rfl⟩
      · exact hfh k' b h1 hbh
      · exact (List.Nodup.mem_erase_iff hh).mp hheld |>.1 rfl
    · exact hh.erase a
    · intro k' b hb
      rcases hmem k' b hb with h1 | ⟨-, rfl⟩
      · exact hlt k' b h1
      · exact hhl b ha
    · intro b hb
      exact hhl b (List.mem_of_mem_erase hb)

theorem pool_run_never_twice (ops : List pool_op) :
    ∀ σ : pool_state, pool_ok σ → releases_held ops σ → never_twice ops σ := by
  induction ops with
  | nil => intro σ _ _; trivial
  | cons o os ih =>
    intro σ h hl
    obtain ⟨hl1, hl2⟩ := hl
    obtain ⟨hok, hn⟩ := pool_step_ok o σ h hl1
    exact ⟨hn, ih _ hok hl2⟩

/-- C15, as amended: pool reuse. `acquire(k)` allocates a new block exactly
when the free list of `k` is empty; otherwise it returns the front block of
that list, the one released earliest since `release` appends at the back,
and removes it, leaving the free lists of all other types unchanged. Hence in
every sequence of calls in which `release` is only given blocks that are
held (returned by an `acquire` and not released since), from a pool whose
blocks are distinct, no `acquire` returns a block that is held; and
`release(b)` followed by `acquire` of the type of `b` on a previously empty
list returns `b`. On `reuse_sequence` the blocks come back in the order of
their release and the third `acquire` allocates. -/
theorem pool_reuse (pool : alert_pool) (k m : Nat) (b : Alert) (ops : List pool_op)
    (σ : pool_state) :
    (pool.m_pool k = [] → pool.acquire k m = (m, pool, m + 1)) ∧
    (∀ front rest, pool.m_pool k = front :: rest →
      (pool.acquire k m).1 = front ∧ (pool.acquire k m).2.2 = m ∧
      (pool.acquire k m).2.1.m_pool k = rest ∧
      ∀ k', k' ≠ k → (pool.acquire k m).2.1.m_pool k' = pool.m_pool k') ∧
    ((pool.release b k).m_pool k = pool.m_pool k ++ [b] ∧
      ∀ k', k' ≠ k → (pool.release b k).m_pool k' = pool.m_pool k') ∧
    (pool_ok σ → releases_held ops σ → never_twice ops σ) ∧
    (pool.m_pool k = [] → ((pool.release b k).acquire k m).1 = b) ∧
    (pool_run reuse_sequence (empty_pool 100)).2
      = [some 100, some 101, none, none, some 101, some 100, some 102] := by
  refine ⟨?_, ?_, ?_, pool_run_never_twice ops σ, ?_, by decide⟩
  · intro he
    simp [alert_pool.acquire, he]
  · intro front rest he
    refine ⟨by simp [alert_pool.acquire, he], by simp [alert_pool.acquire, he],
      by simp [alert_pool.acquire, he], ?_⟩
    intro k' hk'
    simp [alert_pool.acquire, he, Function.update_noteq hk']
  · refine ⟨by simp [alert_pool.release], ?_⟩
    intro k' hk'
    simp [alert_pool.release, Function.update_noteq hk']
  · intro he
    simp [alert_pool.acquire, alert_pool.release, he]

/-- Instance of `pool_reuse`: the empty pool and `reuse_sequence`. -/
theorem pool_reuse_witness :
    (empty_pool 100).pool.m_pool 5 = [] ∧
    (empty_pool 100).pool.acquire 5 100 = (100, (empty_pool 100).pool, 101) ∧
    pool_ok (empty_pool 100) ∧ releases_held reuse_sequence (empty_pool 100) ∧
    never_twice reuse_sequence (empty_pool 100) ∧
    (((empty_pool 100).pool.release 7 5).acquire 5 100).1 = 7 := by
  have hl : releases_held reuse_sequence (empty_pool 100) := by
    simp [releases_held, reuse_sequence, pool_step, alert_pool.acquire, alert_pool.release,
      empty_pool]
  have h := pool_reuse (empty_pool 100).pool 5 100 7 reuse_sequence (empty_pool 100)
  exact ⟨rfl, h.1 rfl, empty_pool_ok 100, hl, h.2.2.2.1 (empty_pool_ok 100) hl,
    h.2.2.2.2.1 rfl⟩

/-- C15 as stated fails: in the sequence `double_release` the block 7 is
released twice; the two `acquire` calls that follow both return it, with no
`release` between them. -/
theorem pool_double_release :
    (pool_run double_release (empty_pool 100)).2 = [none, none, some 7, some 7] ∧
    ¬ never_twice double_release (empty_pool 100) := by
  refine ⟨by decide, ?_⟩
  simp [never_twice, double_release, pool_step, alert_pool.acquire, alert_pool.release,
    empty_pool]

/-! ## Slot indices -/

theorem next_slot_lt (L w : Nat) (hw : w < 2 * L) : next_slot L w < 2 * L := by
  unfold next_slot; split_ifs <;> omega

theorem next_slot_eq_mod (L w : Nat) (hw : w < 2 * L) :
    next_slot L w = (w + 1) % (2 * L) := by
  rw [succ_mod_eq_wrap _ _ hw]
  unfold next_slot wrap
  split_ifs <;> omega

theorem check_size_index_ok (L : Nat) (t : producer) (rs : Nat)
    (hl : t.size_limit = L) (hn : t.next < 2 * L) : index_ok L (check_size t rs) := by
  unfold check_size
  split_ifs
  · trivial
  · exact ⟨hl, hn⟩

/-- One step of a producer keeps the write slot and its own slot index
inside the array. -/
theorem producer_step_index (L : Nat) (m : alert_manager) (t : producer)
    (hL : m.m_queue_size_limit = L) (hw : m.m_queue_write_slot < 2 * L)
    (ht : index_ok L t) :
    (producer_step m t).1.m_queue_size_limit = L ∧
    (producer_step m t).1.m_queue_write_slot < 2 * L ∧
    index_ok L (producer_step m t).2 := by
  unfold index_ok at ht
  cases hp : t.pc with
  | idle =>
    simp only [producer_step, hp]
    cases htd : t.todo with
    | nil =>
      refine ⟨hL, hw, ?_⟩
      unfold index_ok; rw [hp]; trivial
    | cons x rest =>
      obtain ⟨a, p⟩ := x
      exact ⟨hL, hw, hL⟩
  | load_write =>
    rw [hp] at ht
    simp only [producer_step, hp]
    refine ⟨hL, hw, ht, ?_⟩
    show next_slot t.size_limit m.m_queue_write_slot < 2 * L
    rw [ht]; exact next_slot_lt L _ hw
  | load_read =>
    rw [hp] at ht
    obtain ⟨hl, hn⟩ := ht
    simp only [producer_step, hp]
    split_ifs
    · exact ⟨hL, hw, check_size_index_ok L _ _ hl hn⟩
    · exact ⟨hL, hw, check_size_index_ok L _ _ hl hn⟩
    · exact ⟨hL, hw, hl, hn⟩
  | load_size =>
    rw [hp] at ht
    obtain ⟨hl, hn⟩ := ht
    simp only [producer_step, hp]
    exact ⟨hL, hw, check_size_index_ok L _ _ hl hn⟩
  | cas_write =>
    rw [hp] at ht
    obtain ⟨hl, hn⟩ := ht
    simp only [producer_step, hp]
    split_ifs
    · exact ⟨hL, hn, hl, hn⟩
    · exact ⟨hL, hw, hl⟩
  | cas_slot =>
    rw [hp] at ht
    obtain ⟨hl, hn⟩ := ht
    simp only [producer_step, hp]
    cases hs : m.m_alerts t.next with
    | none => exact ⟨hL, hw, hl, hn⟩
    | some v =>
      refine ⟨hL, hw, ?_⟩
      unfold index_ok
      simp only [hp]
      exact ⟨hl, hn⟩
  | add_size =>
    simp only [producer_step, hp]
    exact ⟨by simpa using hL, by simpa using hw, trivial⟩

theorem system_step_index (L i : Nat) (σ : system) (h : index_inv L σ) :
    index_inv L (system_step i σ) := by
  cases hi : σ.threads[i]? with
  | none => simp only [system_step, hi]; exact h
  | some t =>
    simp only [system_step, hi]
    obtain ⟨hL, hw, hth⟩ := h
    obtain ⟨a1, a2, a3⟩ := producer_step_index L σ.shared t hL hw (hth t (List.getElem?_mem hi))
    refine ⟨a1, a2, ?_⟩
    intro t' ht'
    rcases List.mem_or_eq_of_mem_set ht' with hm | he
    · exact hth t' hm
    · rw [he]; exact a3

theorem run_schedule_index (L : Nat) (sched : List Nat) :
    ∀ σ : system, index_inv L σ → index_inv L (run_schedule sched σ) := by
  induction sched with
  | nil => intro σ h; exact h
  | cons i is ih =>
    intro σ h
    exact ih _ (system_step_index L i σ h)

theorem initial_system_index (m : alert_manager) (posts : List (List (Alert × Nat)))
    (hw : m.m_queue_write_slot < 2 * m.m_queue_size_limit) :
    index_inv m.m_queue_size_limit (initial_system m posts) := by
  refine ⟨rfl, hw, ?_⟩
  intro t ht
  simp only [initial_system, List.mem_map] at ht
  obtain ⟨todo, -, rfl⟩ := ht
  trivial

theorem twice_limit_int_eq (L : Nat) (hb : 2 * L ≤ INT_MAX) :
    twice_limit_int L = ((L * 2 : Nat) : Int) := by
  simp only [INT_MAX] at hb
  unfold twice_limit_int int_wrap
  omega

/-- C16, as amended: slot index safety. For every limit `L >= 1` with
`2L <= INT_MAX`, every priority `p` in {0, 1} and every state with
`write_slot` inside the array of `2L` slots (the read slot plays no part),
the asserted conditions of `do_enqueue_alert` hold in `int` arithmetic:
`L*(1+p) <= 2L` (line 315), `0 <= next < 2L` (line 343) and `next <= 2L`
(line 371), and the index of `m_alerts[next]` is inside the array. When the
call returns, `write_slot` is again inside the array: `(old write_slot + 1)
mod 2L` on acceptance, unchanged on rejection. And at every step of the
call, also of one that does not return, and of any interleaving of such
calls, `write_slot` and every slot index in use are inside the array. -/
theorem slot_index_safety (s : alert_manager) (a : Alert) (p : Nat) (hp : p ≤ 1)
    (hb : 2 * s.m_queue_size_limit ≤ INT_MAX)
    (hw : s.m_queue_write_slot < 2 * s.m_queue_size_limit) :
    limit_for_priority_int s.m_queue_size_limit p ≤ twice_limit_int s.m_queue_size_limit ∧
    (0 ≤ next_slot_int s.m_queue_size_limit s.m_queue_write_slot ∧
      next_slot_int s.m_queue_size_limit s.m_queue_write_slot
        < twice_limit_int s.m_queue_size_limit) ∧
    next_slot_int s.m_queue_size_limit s.m_queue_write_slot
      ≤ twice_limit_int s.m_queue_size_limit ∧
    (next_slot_int s.m_queue_size_limit s.m_queue_write_slot).toNat
      < 2 * s.m_queue_size_limit ∧
    (∀ b s', do_enqueue_alert_int s a p = some (b, s') →
      s'.m_queue_size_limit = s.m_queue_size_limit ∧
      s'.m_queue_write_slot < 2 * s.m_queue_size_limit ∧
      (b = true → s'.m_queue_write_slot
        = (s.m_queue_write_slot + 1) % (2 * s.m_queue_size_limit)) ∧
      (b = false → s'.m_queue_write_slot = s.m_queue_write_slot)) ∧
    (∀ (posts : List (List (Alert × Nat))) (sched : List Nat),
      (run_schedule sched (initial_system s posts)).shared.m_queue_write_slot
        < 2 * s.m_queue_size_limit ∧
      ∀ t ∈ (run_schedule sched (initial_system s posts)).threads,
        t.pc = enqueue_pc.cas_slot → t.next < 2 * s.m_queue_size_limit) := by
  have hnx := next_slot_lt s.m_queue_size_limit s.m_queue_write_slot hw
  have hn := next_slot_int_eq s.m_queue_size_limit s.m_queue_write_slot hb hw
  have hl := limit_for_priority_int_eq s.m_queue_size_limit p hb hp
  have ht := twice_limit_int_eq s.m_queue_size_limit hb
  have hle : s.m_queue_size_limit * (1 + p) ≤ s.m_queue_size_limit * 2 :=
    Nat.mul_le_mul_left _ (by omega)
  have htn : (next_slot_int s.m_queue_size_limit s.m_queue_write_slot).toNat
      = next_slot s.m_queue_size_limit s.m_queue_write_slot := by
    rw [hn, Int.toNat_ofNat]
  refine ⟨?_, ⟨?_, ?_⟩, ?_, ?_, ?_, ?_⟩
  · rw [hl, ht]; exact_mod_cast hle
  · rw [hn]; exact Int.ofNat_nonneg _
  · rw [hn, ht]; exact_mod_cast (by omega : next_slot s.m_queue_size_limit
      s.m_queue_write_slot < s.m_queue_size_limit * 2)
  · rw [hn, ht]; exact_mod_cast (by omega : next_slot s.m_queue_size_limit
      s.m_queue_write_slot ≤ s.m_queue_size_limit * 2)
  · rw [htn]; exact hnx
  · intro b s' h
    unfold do_enqueue_alert_int at h
    simp only at h
    split_ifs at h with hge
    · simp only [Option.some.injEq, Prod.mk.injEq] at h
      obtain ⟨rfl, rfl⟩ := h
      exact ⟨rfl, hw, fun hb => absurd hb (by simp), fun _ => rfl⟩
    · rw [htn] at h
      cases hsl : s.m_alerts (next_slot s.m_queue_size_limit s.m_queue_write_slot) with
      | some v => simp [hsl] at h
      | none =>
        simp only [hsl, Option.some.injEq, Prod.mk.injEq] at h
        obtain ⟨rfl, rfl⟩ := h
        refine ⟨by simp, by simpa using hnx, fun _ => ?_, fun hb => absurd hb (by simp)⟩
        simp only [publish_write_slot]
        exact next_slot_eq_mod _ _ hw
  · intro posts sched
    obtain ⟨-, h2, h3⟩ := run_schedule_index s.m_queue_size_limit sched _
      (initial_system_index s posts hw)
    refine ⟨h2, ?_⟩
    intro t ht hpc
    have := h3 t ht
    unfold index_ok at this
    rw [hpc] at this
    exact this.2

/-- Instance of `slot_index_safety`: the last slot of a ring of limit 2, from
which the write slot wraps to 0. -/
theorem slot_index_safety_witness :
    (1 : Nat) ≤ 1 ∧ 2 * (empty_manager 2 3).m_queue_size_limit ≤ INT_MAX ∧
    (empty_manager 2 3).m_queue_write_slot < 2 * (empty_manager 2 3).m_queue_size_limit ∧
    (next_slot_int (empty_manager 2 3).m_queue_size_limit
      (empty_manager 2 3).m_queue_write_slot).toNat
      < 2 * (empty_manager 2 3).m_queue_size_limit ∧
    (do_enqueue_alert_int (empty_manager 2 3) 7 1).map
        (fun r => (r.1, r.2.m_queue_write_slot))
      = some (true, 0) :=
  ⟨by decide, by decide, by decide,
   (slot_index_safety (empty_manager 2 3) 7 1 (by decide) (by decide) (by decide)).2.2.2.1,
   by rw [do_enqueue_alert_int_eq _ _ _ (by decide) (by decide) (by decide) (by decide)]
      decide⟩

/-- C16 as stated fails at the limit `L = 2^30`: on the empty ring of that
limit both slot indices are inside the array, but `size_limit * 2` overflows
to `INT_MIN`, so the assertion of line 315 is false for priority 0 and those
of lines 343 and 371 are false for `next = 1`. -/
theorem slot_index_overflow :
    1 ≤ overflow_ring.m_queue_size_limit ∧ overflow_ring.m_queue_size_limit ≤ INT_MAX ∧
    overflow_ring.m_queue_write_slot < 2 * overflow_ring.m_queue_size_limit ∧
    overflow_ring.m_queue_read_slot < 2 * overflow_ring.m_queue_size_limit ∧
    twice_limit_int overflow_ring.m_queue_size_limit = -2147483648 ∧
    next_slot_int overflow_ring.m_queue_size_limit overflow_ring.m_queue_write_slot = 1 ∧
    ¬ (limit_for_priority_int overflow_ring.m_queue_size_limit ((0 : Nat) : Int)
        ≤ twice_limit_int overflow_ring.m_queue_size_limit) ∧
    ¬ (next_slot_int overflow_ring.m_queue_size_limit overflow_ring.m_queue_write_slot
        < twice_limit_int overflow_ring.m_queue_size_limit) ∧
    ¬ (next_slot_int overflow_ring.m_queue_size_limit overflow_ring.m_queue_write_slot
        ≤ twice_limit_int overflow_ring.m_queue_size_limit) := by
  refine ⟨by decide, by decide, by decide, by decide, ?_, ?_, ?_, ?_, ?_⟩ <;>
    (simp only [limit_for_priority_int, next_slot_int, twice_limit_int, int_wrap]; decide)

/-! ## Rejection -/

/-- C17: rejection is atomic. Whenever a sequential `do_enqueue_alert`
returns false, for any limit, priority and state, the state is exactly as
before the call: `write_slot`, `read_slot`, `size` and every slot are
unchanged and neither `m_notify` nor `m_condition.notify_all` was
invoked. -/
theorem rejection_atomic (s s' : alert_manager) (a : Alert) (p : Nat)
    (h : do_enqueue_alert s a p = some (false, s')) :
    s' = s ∧ s'.m_queue_write_slot = s.m_queue_write_slot ∧
    s'.m_queue_read_slot = s.m_queue_read_slot ∧ s'.m_queue_size = s.m_queue_size ∧
    (∀ i, s'.m_alerts i = s.m_alerts i) ∧ s'.notify_calls = s.notify_calls ∧
    s'.condition_notify_all_calls = s.condition_notify_all_calls := by
  have hs : s' = s := (do_enqueue_alert_frame s s' a p false h).2.2.2.2 rfl
  subst hs
  exact ⟨rfl, rfl, rfl, rfl, fun _ => rfl, rfl, rfl⟩

/-- Instance of `rejection_atomic`: a priority-0 alert on the ring of limit
1 that already holds one alert. -/
theorem rejection_atomic_witness :
    ∃ s', do_enqueue_alert one_held_ring 9 0 = some (false, s') ∧ s' = one_held_ring :=
  ⟨one_held_ring, rfl, (rejection_atomic one_held_ring one_held_ring 9 0 rfl).1⟩

/-! ## The dispatch function -/

/-- C18: legacy dispatch path. Whenever a dispatch function is set,
`emplace_alert` returns false, for every alert class and every state; the
newly constructed alert (a fresh block of `new`, not one of the pool) is
handed to the dispatch function, once; the ring (`write_slot`, `read_slot`,
`size`, every slot) and the free lists of the pool are as before, and neither
`m_notify`, nor `m_condition.notify_all`, nor any `on_alert` is invoked. -/
theorem dispatch_path (T : alert_class) (s : alert_manager) (hd : s.m_dispatch = true) :
    ∃ s', emplace_alert T s = some (call_end.returned false, s') ∧
      s'.dispatched = s.dispatched ++ [s.malloc_next] ∧
      s'.m_queue_write_slot = s.m_queue_write_slot ∧
      s'.m_queue_read_slot = s.m_queue_read_slot ∧
      s'.m_queue_size = s.m_queue_size ∧ (∀ i, s'.m_alerts i = s.m_alerts i) ∧
      (∀ k, s'.m_alerts_pool.m_pool k = s.m_alerts_pool.m_pool k) ∧
      s'.notify_calls = s.notify_calls ∧
      s'.condition_notify_all_calls = s.condition_notify_all_calls ∧
      s'.on_alert_log = s.on_alert_log := by
  unfold emplace_alert
  rw [if_pos hd]
  exact ⟨_, rfl, rfl, rfl, rfl, rfl, fun _ => rfl, fun _ => rfl, rfl, rfl, rfl⟩

/-- Instance of `dispatch_path`: `dispatching_manager`, whose ring is empty
and which has a notify function and extensions. -/
theorem dispatch_path_witness :
    dispatching_manager.m_dispatch = true ∧
    (emplace_alert urgent_class dispatching_manager).map
        (fun r => (r.1, r.2.dispatched, r.2.m_queue_size, r.2.notify_calls, r.2.on_alert_log))
      = some (call_end.returned false, [100], 0, 0, []) := by
  obtain ⟨s', he, h1, -, -, h4, -, -, h7, -, h9⟩ :=
    dispatch_path urgent_class dispatching_manager rfl
  refine ⟨rfl, ?_⟩
  rw [he]
  simp only [Option.map_some', h1, h4, h7, h9]
  rfl

end libtorrent
